import Mathlib

/-!
Verification development for the AudioReactive repository.

The Python sources are shallowly embedded over `ℚ`:
`audio_analysis.py` (normalize_energy, detect_peaks via scipy find_peaks),
`video_processor.py` (apply_effects pipeline, per-frame zoom/rotation
reactivity of process_video_enhanced), `image_to_video.py`
(frame schedule and the identical reactivity formulas), and
`gui_preview_pyqt5.py` (apply_temporal_smoothing).

External library primitives (cv2 image operations, numpy RNG draws,
transcendental functions) are not repository code; they are taken as
explicit parameters of the embedding, while every branch, guard,
arithmetic formula and loop of the repository code itself is translated
directly from the source.
-/

/-- `1e-8`, the epsilon used by `normalize_energy` and as the division
guard added to weight denominators in the reactivity code. -/
def eps : ℚ := 1 / 100000000

/-- Python `int()` / numpy integer casts truncate toward zero. -/
def pyInt (x : ℚ) : ℤ := if 0 ≤ x then ⌊x⌋ else ⌈x⌉

/-- Python `int()` of a nonnegative quantity used as an array size/index. -/
def pyIntNat (x : ℚ) : ℕ := (pyInt x).toNat

/-- `np.clip(x, lo, hi)`: lower bound applied first, then upper bound. -/
def npClip (x lo hi : ℚ) : ℚ := min hi (max lo x)

/-- `np.clip(x, 0.0, 1.0)` as used throughout the reactivity code. -/
def clip01 (x : ℚ) : ℚ := npClip x 0 1

/-- `np.min` over a (nonempty) 1-D array; 0 on the empty array. -/
def npMin : List ℚ → ℚ
  | [] => 0
  | x :: xs => xs.foldl min x

/-- `np.max` over a (nonempty) 1-D array; 0 on the empty array. -/
def npMax : List ℚ → ℚ
  | [] => 0
  | x :: xs => xs.foldl max x

/-- `AudioAnalyzer.normalize_energy`: min-max normalization of a raw
energy curve, returning all zeros when the range is below `1e-8`. -/
def normalize_energy (energy : List ℚ) : List ℚ :=
  let energyMin := npMin energy
  let energyMax := npMax energy
  let energyRange := energyMax - energyMin
  if energyRange < eps then List.replicate energy.length 0
  else energy.map (fun x => (x - energyMin) / energyRange)

theorem foldl_min_le_init (l : List ℚ) : ∀ a : ℚ, l.foldl min a ≤ a := by
  induction l with
  | nil => intro a; simp
  | cons x xs ih =>
    intro a
    simpa using (ih (min a x)).trans (min_le_left a x)

theorem foldl_min_le_mem (l : List ℚ) :
    ∀ a : ℚ, ∀ x ∈ l, l.foldl min a ≤ x := by
  induction l with
  | nil => intro a x hx; simp at hx
  | cons y ys ih =>
    intro a x hx
    rcases List.mem_cons.mp hx with h | h
    · subst h
      simpa using (foldl_min_le_init ys (min a x)).trans (min_le_right a x)
    · simpa using ih (min a y) x h

theorem le_foldl_max_init (l : List ℚ) : ∀ a : ℚ, a ≤ l.foldl max a := by
  induction l with
  | nil => intro a; simp
  | cons x xs ih =>
    intro a
    simpa using (le_max_left a x).trans (ih (max a x))

theorem le_foldl_max_mem (l : List ℚ) :
    ∀ a : ℚ, ∀ x ∈ l, x ≤ l.foldl max a := by
  induction l with
  | nil => intro a x hx; simp at hx
  | cons y ys ih =>
    intro a x hx
    rcases List.mem_cons.mp hx with h | h
    · subst h
      simpa using (le_max_right a x).trans (le_foldl_max_init ys (max a x))
    · simpa using ih (max a y) x h

theorem foldl_max_mem (l : List ℚ) :
    ∀ a : ℚ, l.foldl max a = a ∨ l.foldl max a ∈ l := by
  induction l with
  | nil => intro a; simp
  | cons y ys ih =>
    intro a
    rcases ih (max a y) with h | h
    · rcases max_choice a y with hm | hm
      · left; simpa [hm] using h
      · right; simp [List.mem_cons]; left; rw [← hm]; simpa using h
    · right; exact List.mem_cons_of_mem _ h

theorem npMin_le {l : List ℚ} {x : ℚ} (hx : x ∈ l) : npMin l ≤ x := by
  cases l with
  | nil => simp at hx
  | cons y ys =>
    rcases List.mem_cons.mp hx with h | h
    · subst h; exact foldl_min_le_init ys x
    · exact foldl_min_le_mem ys y x h

theorem le_npMax {l : List ℚ} {x : ℚ} (hx : x ∈ l) : x ≤ npMax l := by
  cases l with
  | nil => simp at hx
  | cons y ys =>
    rcases List.mem_cons.mp hx with h | h
    · subst h; exact le_foldl_max_init ys x
    · exact le_foldl_max_mem ys y x h

theorem npMax_mem {l : List ℚ} (hl : l ≠ []) : npMax l ∈ l := by
  cases l with
  | nil => exact absurd rfl hl
  | cons y ys =>
    rcases foldl_max_mem ys y with h | h
    · simp [npMax, h]
    · simp [npMax]; right; exact h

/-- C3: for every non-empty raw energy array, `normalize_energy` keeps the
length, returns only values in `[0, 1]`, and returns the all-zero array
exactly when the raw max-min range is below `1e-8`. -/
theorem normalize_energy_spec (energy : List ℚ) (hne : energy ≠ []) :
    (normalize_energy energy).length = energy.length ∧
    (∀ y ∈ normalize_energy energy, 0 ≤ y ∧ y ≤ 1) ∧
    ((∀ y ∈ normalize_energy energy, y = 0) ↔
      npMax energy - npMin energy < eps) := by
  by_cases hr : npMax energy - npMin energy < eps
  · refine ⟨?_, ?_, ?_⟩
    · simp [normalize_energy, hr]
    · intro y hy
      simp [normalize_energy, hr] at hy
      simp [hy.2]
    · constructor
      · intro _; exact hr
      · intro _ y hy
        simp [normalize_energy, hr] at hy
        exact hy.2
  · have hpos : 0 < npMax energy - npMin energy := by
      have : (0 : ℚ) < eps := by norm_num [eps]
      linarith [not_lt.mp hr, this]
    refine ⟨?_, ?_, ?_⟩
    · simp [normalize_energy, hr]
    · intro y hy
      simp only [normalize_energy, if_neg hr, List.mem_map] at hy
      obtain ⟨x, hx, rfl⟩ := hy
      constructor
      · exact div_nonneg (by linarith [npMin_le hx]) (le_of_lt hpos)
      · rw [div_le_one hpos]
        linarith [le_npMax hx]
    · constructor
      · intro hz
        exfalso
        have hmem : npMax energy ∈ energy := npMax_mem hne
        have h1 : (npMax energy - npMin energy) / (npMax energy - npMin energy) ∈
            normalize_energy energy := by
          simp only [normalize_energy, if_neg hr]
          exact List.mem_map.mpr ⟨npMax energy, hmem, rfl⟩
        have := hz _ h1
        rw [div_self (ne_of_gt hpos)] at this
        norm_num at this
      · intro h; exact absurd h hr

/-- Checks `normalize_energy_spec` on a concrete curve. -/
theorem normalize_energy_spec_witness :
    (normalize_energy [2, 4, 3]).length = 3 ∧
    (∀ y ∈ normalize_energy [2, 4, 3], 0 ≤ y ∧ y ≤ 1) ∧
    ((∀ y ∈ normalize_energy [2, 4, 3], y = 0) ↔
      npMax [2, 4, 3] - npMin [2, 4, 3] < eps) :=
  normalize_energy_spec [2, 4, 3] (by decide)

/-- `ImageToVideoProcessor.__init__`:
`self.total_frames = int(self.audio_duration * fps)`. -/
def image_to_video_total_frames (audioDuration fps : ℚ) : ℤ :=
  pyInt (audioDuration * fps)

/-- `process_image_to_video`: time of output frame `i` is
`current_time = frame_idx / self.fps`. -/
def frameTimeAt (fps : ℚ) (i : ℕ) : ℚ := (i : ℚ) / fps

/-- The per-frame time schedule driven by
`for frame_idx in range(self.total_frames)` in `process_image_to_video`. -/
def frameSchedule (audioDuration fps : ℚ) : List ℚ :=
  (List.range (image_to_video_total_frames audioDuration fps).toNat).map
    (frameTimeAt fps)

/-- C5 counterexample: with a 5.03-second audio file at 30 fps the code
produces `int(150.9) = 150` frames, not `round(150.9) = 151` as claimed. -/
theorem image_to_video_frame_count_not_round :
    image_to_video_total_frames (503 / 100) 30 ≠ round ((503 / 100 : ℚ) * 30) := by
  have h1 : image_to_video_total_frames (503 / 100) 30 = 150 := by
    unfold image_to_video_total_frames pyInt
    rw [if_pos (by norm_num)]
    rw [show (503 / 100 : ℚ) * 30 = 1509 / 10 by norm_num]
    rw [show (150 : ℤ) = ((150 : ℤ) : ℤ) from rfl, Int.floor_eq_iff]
    norm_num
  have h2 : round ((503 / 100 : ℚ) * 30) = 151 := by
    rw [round_eq]
    rw [show (503 / 100 : ℚ) * 30 + 1 / 2 = 1514 / 10 by norm_num]
    rw [show (151 : ℤ) = ((151 : ℤ) : ℤ) from rfl, Int.floor_eq_iff]
    norm_num
  rw [h1, h2]
  decide

/-- C5 (amended): the image-to-video path produces exactly
`⌊audioDuration * fps⌋` output frames (Python `int` truncation, not
rounding), and the time of frame `i` is `i / fps`. -/
theorem image_to_video_frame_schedule (audioDuration fps : ℚ)
    (h : 0 ≤ audioDuration * fps) :
    (frameSchedule audioDuration fps).length = (⌊audioDuration * fps⌋).toNat ∧
    (∀ i, i < (frameSchedule audioDuration fps).length →
      (frameSchedule audioDuration fps).getD i 0 = (i : ℚ) / fps) := by
  constructor
  · simp [frameSchedule, image_to_video_total_frames, pyInt, h]
  · intro i hi
    simp only [frameSchedule, List.length_map, List.length_range] at hi
    simp [frameSchedule, frameTimeAt, List.getD_eq_getElem?_getD,
      List.getElem?_map, List.getElem?_range, hi]

/-- End-to-end scenario 3 of the spec: 5-second audio at 30 fps gives
exactly 150 frames, frame 30 occurring at t = 1 s. -/
theorem image_to_video_frame_schedule_witness :
    (frameSchedule 5 30).length = (⌊(5 : ℚ) * 30⌋).toNat ∧
    (∀ i, i < (frameSchedule 5 30).length →
      (frameSchedule 5 30).getD i 0 = (i : ℚ) / 30) :=
  image_to_video_frame_schedule 5 30 (by norm_num)

/-- `apply_temporal_smoothing` from `gui_preview_pyqt5.py`: the per-effect
exponential smoother. The state is the `prev_effect_intensities` dict,
modelled as an association list (newest binding first, as seen by
`lookup`). Returns the reported intensity and the updated state. -/
def apply_temporal_smoothing (smoothingFactor : ℚ)
    (state : List (String × ℚ)) (effectName : String) (current : ℚ) :
    ℚ × List (String × ℚ) :=
  match state.lookup effectName with
  | none => (current, (effectName, current) :: state)
  | some prev =>
    let alpha := 1 - smoothingFactor
    let smoothed := alpha * current + (1 - alpha) * prev
    (smoothed, (effectName, smoothed) :: state)

/-- Feeds a sequence of raw intensities one frame at a time through
`apply_temporal_smoothing`, collecting the outputs and the final state. -/
def runSmoothing (smoothingFactor : ℚ) (effectName : String) :
    List ℚ → List (String × ℚ) → List ℚ × List (String × ℚ)
  | [], state => ([], state)
  | x :: xs, state =>
    let step := apply_temporal_smoothing smoothingFactor state effectName x
    let rest := runSmoothing smoothingFactor effectName xs step.2
    (step.1 :: rest.1, rest.2)

theorem runSmoothing_congr (smoothingFactor : ℚ) (effectName : String) :
    ∀ (xs : List ℚ) (st1 st2 : List (String × ℚ)),
      st1.lookup effectName = st2.lookup effectName →
      (runSmoothing smoothingFactor effectName xs st1).1 =
      (runSmoothing smoothingFactor effectName xs st2).1 := by
  intro xs
  induction xs with
  | nil => intro st1 st2 _; simp [runSmoothing]
  | cons y ys ih =>
    intro st1 st2 hlk
    simp only [runSmoothing, apply_temporal_smoothing, hlk]
    cases hc : st2.lookup effectName with
    | none =>
      simp only
      exact congrArg (y :: ·) (ih ((effectName, y) :: st1)
        ((effectName, y) :: st2) (by simp [List.lookup]))
    | some p =>
      simp only
      refine congrArg (_ :: ·) (ih _ _ ?_)
      simp [List.lookup]

theorem runSmoothing_ones (smoothingFactor : ℚ) (effectName : String) :
    ∀ (k : ℕ) (p : ℚ),
      (runSmoothing smoothingFactor effectName (List.replicate k 1)
        [(effectName, p)]).1 =
      (List.range k).map (fun j => 1 - smoothingFactor ^ (j + 1) * (1 - p)) := by
  intro k
  induction k with
  | zero => intro p; simp [runSmoothing]
  | succ n ih =>
    intro p
    have hstep : apply_temporal_smoothing smoothingFactor [(effectName, p)]
        effectName 1 =
        (1 - smoothingFactor * (1 - p),
         (effectName, 1 - smoothingFactor * (1 - p)) :: [(effectName, p)]) := by
      simp [apply_temporal_smoothing, List.lookup]
      ring
    rw [List.replicate_succ]
    simp only [runSmoothing, hstep]
    rw [runSmoothing_congr smoothingFactor effectName (List.replicate n 1) _
      [(effectName, 1 - smoothingFactor * (1 - p))] (by simp [List.lookup])]
    rw [ih (1 - smoothingFactor * (1 - p))]
    rw [List.range_succ_eq_map]
    simp only [List.map_cons, List.map_map]
    refine List.cons_eq_cons.mpr ⟨by ring, ?_⟩
    apply List.map_congr_left
    intro j _
    simp only [Function.comp_apply, Nat.succ_eq_add_one]
    ring

/-- The spec's step-response scenario: three frames of raw intensity 0
followed by `k` frames of raw intensity 1, fed one frame at a time into
`apply_temporal_smoothing` from an empty smoothing state. -/
def stepResponse (smoothingFactor : ℚ) (effectName : String) (k : ℕ) : List ℚ :=
  (runSmoothing smoothingFactor effectName
    (List.replicate 3 0 ++ List.replicate k 1) []).1

theorem stepResponse_closed_form (smoothingFactor : ℚ) (effectName : String)
    (k : ℕ) :
    stepResponse smoothingFactor effectName k =
      [0, 0, 0] ++ (List.range k).map (fun j => 1 - smoothingFactor ^ (j + 1)) := by
  have h0 : apply_temporal_smoothing smoothingFactor [] effectName 0 =
      (0, [(effectName, 0)]) := by
    simp [apply_temporal_smoothing, List.lookup]
  have h1 : ∀ st : List (String × ℚ), st.lookup effectName = some 0 →
      apply_temporal_smoothing smoothingFactor st effectName 0 =
      (0, (effectName, 0) :: st) := by
    intro st hst
    simp [apply_temporal_smoothing, hst]
  unfold stepResponse
  show (runSmoothing smoothingFactor effectName
      (0 :: 0 :: 0 :: List.replicate k 1) []).1 = _
  simp only [runSmoothing, h0, h1 [(effectName, 0)] (by simp [List.lookup]),
    h1 ((effectName, 0) :: [(effectName, 0)]) (by simp [List.lookup])]
  rw [runSmoothing_congr smoothingFactor effectName (List.replicate k 1) _
    [(effectName, 0)] (by simp [List.lookup])]
  rw [runSmoothing_ones]
  simp

/-- C8 (amended): for `smoothingFactor` strictly between 0 and 1 the step
response of `apply_temporal_smoothing` is `1 - smoothingFactor ^ (j+1)` at
the `j`-th frame after the step: it strictly increases, stays strictly
below 1 (no overshoot), and comes within any positive tolerance of 1
after a number of frames determined by `smoothingFactor` and the
tolerance.  (At `smoothingFactor = 1` the output stays at 0 forever, and
exact equality with 1 is never reached in finitely many frames.) -/
theorem apply_temporal_smoothing_step_response (smoothingFactor : ℚ)
    (effectName : String) (k : ℕ)
    (hpos : 0 < smoothingFactor) (hlt : smoothingFactor < 1) :
    (stepResponse smoothingFactor effectName k).length = 3 + k ∧
    (∀ j, j < 3 → (stepResponse smoothingFactor effectName k).getD j 42 = 0) ∧
    (∀ j, j < k → (stepResponse smoothingFactor effectName k).getD (3 + j) 42 =
      1 - smoothingFactor ^ (j + 1)) ∧
    (∀ j, j + 1 < k →
      (stepResponse smoothingFactor effectName k).getD (3 + j) 42 <
      (stepResponse smoothingFactor effectName k).getD (3 + j + 1) 42) ∧
    (∀ j, j < k → (stepResponse smoothingFactor effectName k).getD (3 + j) 42 < 1) ∧
    (∀ ε : ℚ, 0 < ε → ∃ N, ∀ j, N ≤ j → j < k →
      1 - (stepResponse smoothingFactor effectName k).getD (3 + j) 42 < ε) := by
  have hcf := stepResponse_closed_form smoothingFactor effectName k
  have hget : ∀ j, j < k → (stepResponse smoothingFactor effectName k).getD (3 + j) 42 =
      1 - smoothingFactor ^ (j + 1) := by
    intro j hj
    rw [hcf]
    rw [List.getD_eq_getElem?_getD]
    rw [List.getElem?_append_right (by simp)]
    simp [hj]
  refine ⟨?_, ?_, hget, ?_, ?_, ?_⟩
  · rw [hcf]; simp; omega
  · intro j hj
    rw [hcf]
    interval_cases j <;> simp
  · intro j hj
    rw [hget j (by omega), show 3 + j + 1 = 3 + (j + 1) by omega,
      hget (j + 1) (by omega)]
    have := pow_lt_pow_right_of_lt_one₀ hpos hlt (show j + 1 < j + 2 by omega)
    linarith
  · intro j hj
    rw [hget j hj]
    have : 0 < smoothingFactor ^ (j + 1) := pow_pos hpos _
    linarith
  · intro ε hε
    obtain ⟨N, hN⟩ := exists_pow_lt_of_lt_one hε hlt
    refine ⟨N, fun j hNj hjk => ?_⟩
    rw [hget j hjk]
    have hle : smoothingFactor ^ (j + 1) ≤ smoothingFactor ^ N :=
      pow_le_pow_of_le_one (le_of_lt hpos) (le_of_lt hlt) (by omega)
    linarith

/-- Checks the step-response theorem at `smoothingFactor = 1/2`, four
post-step frames. -/
theorem apply_temporal_smoothing_step_response_witness :
    (stepResponse (1 / 2) "zoom" 4).length = 3 + 4 ∧
    (∀ j, j < 3 → (stepResponse (1 / 2) "zoom" 4).getD j 42 = 0) ∧
    (∀ j, j < 4 → (stepResponse (1 / 2) "zoom" 4).getD (3 + j) 42 =
      1 - (1 / 2 : ℚ) ^ (j + 1)) ∧
    (∀ j, j + 1 < 4 →
      (stepResponse (1 / 2) "zoom" 4).getD (3 + j) 42 <
      (stepResponse (1 / 2) "zoom" 4).getD (3 + j + 1) 42) ∧
    (∀ j, j < 4 → (stepResponse (1 / 2) "zoom" 4).getD (3 + j) 42 < 1) ∧
    (∀ ε : ℚ, 0 < ε → ∃ N, ∀ j, N ≤ j → j < 4 →
      1 - (stepResponse (1 / 2) "zoom" 4).getD (3 + j) 42 < ε) :=
  apply_temporal_smoothing_step_response (1 / 2) "zoom" 4 (by norm_num) (by norm_num)

/-- C8 counterexample: with `smoothingFactor = 1` the smoother has
`alpha = 0`, so after the `0,0,0` prefix the output stays frozen at 0
forever: it neither strictly increases nor converges to 1. -/
theorem apply_temporal_smoothing_stuck_at_one :
    stepResponse 1 "zoom" 4 = List.replicate 7 0 := by
  rw [stepResponse_closed_form]
  simp [List.replicate]

/-- `np.min(np.abs(bass_beat_times - current_time))`: distance from the
current frame time to the nearest detected onset. -/
def nearestBeatDistance (beatTimes : List ℚ) (t : ℚ) : ℚ :=
  npMin (beatTimes.map (fun bt => |bt - t|))

/-- The zoom computation of `process_video_enhanced`
(`video_processor.py`, identical in `process_image_to_video`): with
beat-triggered zoom and at least one detected beat, zoom reacts to beat
proximity and bass intensity inside the beat window and stays exactly
1.0 outside; otherwise zoom scales continuously with bass energy.  Every
intermediate is clipped as in the source, and the weight denominator
carries the `+ 1e-8` division guard. -/
def computeZoom (beatTriggeredZoom : Bool) (beatTimes : List ℚ)
    (t beatWindow subBassVal bassVal subBassZoom bassZoom
     intensitySensitivity zoomFactor : ℚ) : ℚ :=
  if beatTriggeredZoom && !beatTimes.isEmpty then
    let nearestDist := nearestBeatDistance beatTimes t
    if nearestDist ≤ beatWindow then
      let beatProximity := clip01 (1 - nearestDist / beatWindow)
      let bassIntensity :=
        clip01 ((subBassVal * subBassZoom + bassVal * bassZoom) /
          (subBassZoom + bassZoom + eps))
      let zoomIntensity := beatProximity * 0.7 + bassIntensity * 0.3
      let blended := (1 - intensitySensitivity) +
        intensitySensitivity * zoomIntensity
      1 + (zoomFactor - 1) * blended
    else 1
  else
    let zoomIntensity :=
      clip01 ((subBassVal * subBassZoom + bassVal * bassZoom) /
        (subBassZoom + bassZoom + eps))
    let blended := (1 - intensitySensitivity) +
      intensitySensitivity * zoomIntensity
    1 + (zoomFactor - 1) * blended

/-- The rotation-intensity computation of `process_video_enhanced`
(identical in `process_image_to_video`): continuous treble/high-treble
mix, clipped, then sensitivity-blended. -/
def rotationIntensity (trebleVal highTrebleVal trebleRotation
    highTrebleRotation intensitySensitivity : ℚ) : ℚ :=
  let raw := clip01 ((trebleVal * trebleRotation +
    highTrebleVal * highTrebleRotation) /
    (trebleRotation + highTrebleRotation + eps))
  (1 - intensitySensitivity) + intensitySensitivity * raw

/-- The continuous (non-beat-triggered) zoom intensity after sensitivity
blending, as computed by the `else` branch of the zoom code. -/
def continuousZoomIntensity (subBassVal bassVal subBassZoom bassZoom
    intensitySensitivity : ℚ) : ℚ :=
  let raw := clip01 ((subBassVal * subBassZoom + bassVal * bassZoom) /
    (subBassZoom + bassZoom + eps))
  (1 - intensitySensitivity) + intensitySensitivity * raw

/-- The zoom formula exactly as the spec words it (C1): no `1e-8`
division guard on the weight denominator and no clipping of the
intermediate proximity/intensity terms. -/
def zoomSpecFormula (zoomFactor intensitySensitivity dist beatWindow
    subBassVal bassVal subBassZoom bassZoom : ℚ) : ℚ :=
  1 + (zoomFactor - 1) * ((1 - intensitySensitivity) +
    intensitySensitivity * (0.7 * (1 - dist / beatWindow) +
      0.3 * (subBassVal * subBassZoom + bassVal * bassZoom) /
        (subBassZoom + bassZoom)))

theorem clip01_le_one (x : ℚ) : clip01 x ≤ 1 := by
  simp [clip01, npClip]

theorem clip01_nonneg (x : ℚ) : 0 ≤ clip01 x := by
  simp [clip01, npClip]

/-- C1 counterexample: at a frame exactly on a beat, with full
sensitivity, unit weights and saturated bands, the code divides the bass
mix by `w_subbass + w_bass + 1e-8` while the claimed formula divides by
`w_subbass + w_bass`, so the computed zoom differs from the claimed
value. -/
theorem computeZoom_ne_spec_formula :
    computeZoom true [0] 0 (1 / 5) 1 1 1 1 1 2 ≠
      zoomSpecFormula 2 1 (nearestBeatDistance [0] 0) (1 / 5) 1 1 1 1 := by
  have hd : nearestBeatDistance [0] 0 = 0 := by
    simp [nearestBeatDistance, npMin]
  rw [hd]
  unfold computeZoom zoomSpecFormula
  rw [if_pos (by simp)]
  rw [hd, if_pos (by norm_num)]
  norm_num [clip01, npClip, eps]

/-- C1 (amended): when beat-triggered zoom is enabled and at least one
bass-beat onset exists, then inside the beat window the computed zoom is
`1 + (zoomFactor-1) * ((1-s) + s*(0.7*clip01(1 - d/beatWindow) +
0.3*clip01((subBass*w_sb + bass*w_b)/(w_sb + w_b + 1e-8))))`, and outside
the beat window it is exactly 1. -/
theorem computeZoom_beat_window_cases (beatTimes : List ℚ)
    (t beatWindow subBassVal bassVal subBassZoom bassZoom s zoomFactor : ℚ)
    (hne : beatTimes ≠ []) :
    (nearestBeatDistance beatTimes t ≤ beatWindow →
      computeZoom true beatTimes t beatWindow subBassVal bassVal
        subBassZoom bassZoom s zoomFactor =
      1 + (zoomFactor - 1) * ((1 - s) + s *
        (0.7 * clip01 (1 - nearestBeatDistance beatTimes t / beatWindow) +
         0.3 * clip01 ((subBassVal * subBassZoom + bassVal * bassZoom) /
           (subBassZoom + bassZoom + eps))))) ∧
    (beatWindow < nearestBeatDistance beatTimes t →
      computeZoom true beatTimes t beatWindow subBassVal bassVal
        subBassZoom bassZoom s zoomFactor = 1) := by
  have hemp : beatTimes.isEmpty = false := by
    cases beatTimes with
    | nil => exact absurd rfl hne
    | cons a l => rfl
  constructor
  · intro hin
    unfold computeZoom
    rw [if_pos (by simp [hemp])]
    rw [if_pos hin]
    ring
  · intro hout
    unfold computeZoom
    rw [if_pos (by simp [hemp])]
    rw [if_neg (not_le.mpr hout)]

/-- Checks both branches of `computeZoom_beat_window_cases` at concrete
inputs: on a beat the full formula applies, far from every beat the zoom
is exactly 1. -/
theorem computeZoom_beat_window_cases_witness :
    (computeZoom true [0] 0 (1 / 5) 1 1 1 1 1 2 =
      1 + (2 - 1) * ((1 - 1) + 1 *
        (0.7 * clip01 (1 - nearestBeatDistance [0] 0 / (1 / 5)) +
         0.3 * clip01 ((1 * 1 + 1 * 1) / (1 + 1 + eps))))) ∧
    (computeZoom true [0] 9 (1 / 5) 1 1 1 1 1 2 = 1) :=
  ⟨(computeZoom_beat_window_cases [0] 0 (1 / 5) 1 1 1 1 1 2 (by simp)).1
      (by norm_num [nearestBeatDistance, npMin]),
   (computeZoom_beat_window_cases [0] 9 (1 / 5) 1 1 1 1 1 2 (by simp)).2
      (by norm_num [nearestBeatDistance, npMin])⟩

/-- C4 counterexample: with fixed positive band energy (all bands at
1/2, unit weights), raising `intensitySensitivity` from 0 to 1 strictly
DECREASES both the blended zoom intensity and the blended rotation
intensity: the blend interpolates from the full-strength baseline 1 down
toward the audio-scaled value. -/
theorem sensitivity_blend_not_monotone :
    continuousZoomIntensity (1 / 2) (1 / 2) 1 1 1 <
      continuousZoomIntensity (1 / 2) (1 / 2) 1 1 0 ∧
    rotationIntensity (1 / 2) (1 / 2) 1 1 1 <
      rotationIntensity (1 / 2) (1 / 2) 1 1 0 := by
  constructor <;>
    norm_num [continuousZoomIntensity, rotationIntensity, clip01, npClip, eps]

/-- C4 (amended): for any band values and weights and sensitivities
`s1 ≤ s2` in `[0,1]`, the sensitivity blend `(1-s) + s*raw` with the raw
intensity clipped to `[0,1]` is monotone NON-INCREASING in the
sensitivity: the value at `s2` never exceeds the value at `s1`, for both
the zoom and the rotation intensity. -/
theorem sensitivity_blend_antitone (subBassVal bassVal subBassZoom bassZoom
    trebleVal highTrebleVal trebleRotation highTrebleRotation s1 s2 : ℚ)
    (h0 : 0 ≤ s1) (h12 : s1 ≤ s2) (h1 : s2 ≤ 1) :
    continuousZoomIntensity subBassVal bassVal subBassZoom bassZoom s2 ≤
      continuousZoomIntensity subBassVal bassVal subBassZoom bassZoom s1 ∧
    rotationIntensity trebleVal highTrebleVal trebleRotation
        highTrebleRotation s2 ≤
      rotationIntensity trebleVal highTrebleVal trebleRotation
        highTrebleRotation s1 := by
  constructor
  · unfold continuousZoomIntensity
    have hle := clip01_le_one ((subBassVal * subBassZoom + bassVal * bassZoom) /
      (subBassZoom + bassZoom + eps))
    nlinarith
  · unfold rotationIntensity
    have hle := clip01_le_one ((trebleVal * trebleRotation +
      highTrebleVal * highTrebleRotation) /
      (trebleRotation + highTrebleRotation + eps))
    nlinarith

/-- Checks `sensitivity_blend_antitone` at `s1 = 1/4 ≤ s2 = 3/4`. -/
theorem sensitivity_blend_antitone_witness :
    continuousZoomIntensity (1 / 2) (1 / 2) 1 1 (3 / 4) ≤
      continuousZoomIntensity (1 / 2) (1 / 2) 1 1 (1 / 4) ∧
    rotationIntensity (1 / 2) (1 / 2) 1 1 (3 / 4) ≤
      rotationIntensity (1 / 2) (1 / 2) 1 1 (1 / 4) :=
  sensitivity_blend_antitone (1 / 2) (1 / 2) 1 1 (1 / 2) (1 / 2) 1 1
    (1 / 4) (3 / 4) (by norm_num) (by norm_num) (by norm_num)

/-- One-dimensional linear interpolation over a list of `(x, y)` sample
points with increasing `x`, matching `np.interp`: queries left of the
first point return the first value, queries right of the last point
return the last value, interior queries interpolate linearly on their
segment. -/
def interpPts (x : ℚ) : List (ℚ × ℚ) → ℚ
  | [] => 0
  | [p] => p.2
  | p :: q :: rest =>
    if x ≤ p.1 then p.2
    else if x ≤ q.1 then p.2 + (q.2 - p.2) * (x - p.1) / (q.1 - p.1)
    else interpPts x (q :: rest)

/-- `np.interp(xs, xp, fp)`: evaluate the piecewise-linear interpolant
through `(xp, fp)` at every query point of `xs`. -/
def np_interp (xs xp fp : List ℚ) : List ℚ :=
  xs.map (fun x => interpPts x (xp.zip fp))

/-- `np.linspace(start, stop, num)` with its default inclusive endpoint. -/
def linspace (start stop : ℚ) (num : ℕ) : List ℚ :=
  if num = 1 then [start]
  else (List.range num).map
    (fun i => start + (stop - start) * i / ((num : ℚ) - 1))

theorem interpPts_exact :
    ∀ (pts : List (ℚ × ℚ)), pts.Pairwise (fun a b => a.1 < b.1) →
      ∀ p ∈ pts, interpPts p.1 pts = p.2 := by
  intro pts
  induction pts with
  | nil => intro _ p hp; simp at hp
  | cons a tail ih =>
    intro hpw p hp
    have hlt : ∀ q ∈ tail, a.1 < q.1 := (List.pairwise_cons.mp hpw).1
    have hpwt : tail.Pairwise (fun a b => a.1 < b.1) :=
      (List.pairwise_cons.mp hpw).2
    rcases List.mem_cons.mp hp with rfl | hptail
    · cases tail with
      | nil => rfl
      | cons q rest =>
        show interpPts p.1 (p :: q :: rest) = p.2
        unfold interpPts
        rw [if_pos le_rfl]
    · cases tail with
      | nil => simp at hptail
      | cons q rest =>
        have hap : a.1 < p.1 := hlt p hptail
        rcases List.mem_cons.mp hptail with rfl | hprest
        · show interpPts p.1 (a :: p :: rest) = p.2
          unfold interpPts
          rw [if_neg (not_le.mpr hap), if_pos le_rfl, mul_div_assoc,
            div_self (sub_ne_zero.mpr (ne_of_gt hap))]
          ring
        · have hqp : q.1 < p.1 :=
            ((List.pairwise_cons.mp hpwt).1) p hprest
          show interpPts p.1 (a :: q :: rest) = p.2
          unfold interpPts
          rw [if_neg (not_le.mpr hap), if_neg (not_le.mpr hqp)]
          exact ih hpwt p hptail

theorem zip_self_map {α β : Type} (f : α → β) :
    ∀ l : List α, l.zip (l.map f) = l.map (fun a => (a, f a)) := by
  intro l
  induction l with
  | nil => simp
  | cons y ys ihy => simp [ihy]

theorem mem_zip_self_map {α β : Type} (f : α → β) (l : List α) {x : α}
    (hx : x ∈ l) : (x, f x) ∈ l.zip (l.map f) := by
  rw [zip_self_map]
  exact List.mem_map.mpr ⟨x, hx, rfl⟩

theorem pairwise_fst_zip {l l2 : List ℚ} (h : l.Pairwise (· < ·))
    (hlen : l.length ≤ l2.length) :
    (l.zip l2).Pairwise (fun a b => a.1 < b.1) := by
  have hfst : (l.zip l2).map Prod.fst = l := List.map_fst_zip l l2 hlen
  have : ((l.zip l2).map Prod.fst).Pairwise (· < ·) := by rw [hfst]; exact h
  exact (List.pairwise_map.mp this)

/-- C6 counterexample: resampling the band curve `[0,1,0]` (spectrogram
times `[0,1,2]`) onto a 2-frame output timeline `linspace 0 2 2 = [0,2]`
and back loses the interior peak entirely: the round trip returns
`[0,0,0]`, not the original curve, so the round-trip claim fails as
stated. -/
theorem resample_round_trip_fails :
    np_interp [0, 1, 2] (linspace 0 2 2)
      (np_interp (linspace 0 2 2) [0, 1, 2] [0, 1, 0]) ≠ [0, 1, 0] := by
  have hls : linspace 0 2 2 = [0, 2] := by
    norm_num [linspace, List.range_succ]
  rw [hls]
  norm_num [np_interp, interpPts, List.zip]

/-- C6 (amended): the linear-interpolation round trip reproduces the
original band curve at the original sample points PROVIDED every
spectrogram sample time also occurs in the output-frame timeline
`linspace 0 duration totalFrames` (and both time axes are strictly
increasing).  In general — whenever some spectrogram time falls strictly
between output frame times — the round trip is lossy, as the
counterexample shows. -/
theorem resample_round_trip (frameTimes curve : List ℚ) (duration : ℚ)
    (n : ℕ)
    (hlen : frameTimes.length = curve.length)
    (hft : frameTimes.Pairwise (· < ·))
    (hvt : (linspace 0 duration n).Pairwise (· < ·))
    (hsub : ∀ t ∈ frameTimes, t ∈ linspace 0 duration n) :
    np_interp frameTimes (linspace 0 duration n)
      (np_interp (linspace 0 duration n) frameTimes curve) = curve := by
  set vts := linspace 0 duration n with hvts
  set fwd := np_interp vts frameTimes curve with hfwd
  have hfwdlen : fwd.length = vts.length := by
    simp [hfwd, np_interp]
  apply List.ext_getElem
  · simp [np_interp, hlen]
  · intro k hk1 hk2
    simp only [np_interp, List.getElem_map,
      List.length_map] at hk1 ⊢
    have htmem : frameTimes[k] ∈ frameTimes := List.getElem_mem _
    have htv : frameTimes[k] ∈ vts := hsub _ htmem
    -- the forward pass is exact at every output-frame time
    have hfun : ∀ t ∈ vts,
        (t, interpPts t (frameTimes.zip curve)) ∈ vts.zip fwd := by
      intro t ht
      have := mem_zip_self_map (fun x => interpPts x (frameTimes.zip curve)) vts ht
      simpa [hfwd, np_interp] using this
    have hpair2 : (vts.zip fwd).Pairwise (fun a b => a.1 < b.1) :=
      pairwise_fst_zip hvt (by rw [hfwdlen])
    have houter :
        interpPts frameTimes[k] (vts.zip fwd) =
          interpPts frameTimes[k] (frameTimes.zip curve) :=
      interpPts_exact (vts.zip fwd) hpair2 _ (hfun _ htv)
    rw [houter]
    -- the backward pass is exact at every original sample time
    have hmemzip : (frameTimes[k], curve[k]) ∈ frameTimes.zip curve := by
      rw [List.mem_iff_getElem]
      refine ⟨k, by simp [List.length_zip, hlen]; omega, ?_⟩
      simp [List.getElem_zip]
    have hpair1 : (frameTimes.zip curve).Pairwise (fun a b => a.1 < b.1) :=
      pairwise_fst_zip hft (by omega)
    exact interpPts_exact (frameTimes.zip curve) hpair1 _ hmemzip

/-- Checks the amended round trip on a concrete curve whose sample times
`[0,1,2]` all lie on the 3-point output timeline `linspace 0 2 3`. -/
theorem resample_round_trip_witness :
    np_interp [0, 1, 2] (linspace 0 2 3)
      (np_interp (linspace 0 2 3) [0, 1, 2] [5, 7, 6]) = [5, 7, 6] := by
  have hls : linspace 0 2 3 = [0, 1, 2] := by
    norm_num [linspace, List.range_succ]
  refine resample_round_trip [0, 1, 2] [5, 7, 6] 2 3 rfl ?_ ?_ ?_
  · norm_num
  · rw [hls]; norm_num
  · rw [hls]; intro t ht; exact ht

/-- The plateau scan inside scipy's `_local_maxima_1d`: starting at `j`,
advance while the value equals `v` and the index is below `imax`.
`fuel` bounds the recursion and is always passed ≥ the array length. -/
def plateauEnd (x : ℕ → ℚ) (v : ℚ) (imax : ℕ) (j : ℕ) : ℕ → ℕ
  | 0 => j
  | fuel + 1 =>
    if j < imax ∧ x j = v then plateauEnd x v imax (j + 1) fuel else j

/-- The main loop of scipy's `_local_maxima_1d` (used by
`scipy.signal.find_peaks` inside `detect_peaks`): for `i` from 1 while
`i < n - 1`, a sample strictly above its left neighbour opens a
candidate; the plateau of equal values is scanned ahead, and if the
value after the plateau is strictly lower, the plateau midpoint is
recorded as a peak and the scan resumes after the plateau. -/
def lmLoop (x : ℕ → ℚ) (n : ℕ) : ℕ → ℕ → List ℕ
  | _, 0 => []
  | i, fuel + 1 =>
    if i < n - 1 then
      if x (i - 1) < x i then
        let ia := plateauEnd x (x i) (n - 1) (i + 1) n
        if x ia < x i then
          ((i + (ia - 1)) / 2) :: lmLoop x n (ia + 1) fuel
        else lmLoop x n (i + 1) fuel
      else lmLoop x n (i + 1) fuel
    else []

/-- All local maxima (plateau midpoints) of an energy curve, as computed
by `scipy.signal._local_maxima_1d`. -/
def localMaxima (energy : List ℚ) : List ℕ :=
  lmLoop (fun k => energy.getD k 0) energy.length 1 energy.length

/-- `np.percentile(xs, q)` with the default linear interpolation method. -/
def percentile (xs : List ℚ) (q : ℚ) : ℚ :=
  if xs.isEmpty then 0
  else
    let sorted := List.insertionSort (· ≤ ·) xs
    let pos := q / 100 * ((xs.length : ℚ) - 1)
    let lo := (⌊pos⌋).toNat
    let lov := sorted.getD lo 0
    let hiv := sorted.getD (lo + 1) lov
    lov + (pos - (lo : ℚ)) * (hiv - lov)

/-- One step of scipy's `_select_by_peak_distance`: when the peak at
position `p` is still kept, remove every other kept peak closer than
`d` to it. -/
def peakStep (d : ℕ) (kept : List ℕ) (p : ℕ) : List ℕ :=
  if p ∈ kept then
    kept.filter (fun k => decide (k = p ∨ d ≤ max k p - min k p))
  else kept

/-- The priority order of `_select_by_peak_distance`: peaks are visited
from highest to lowest height (stable ascending argsort, reversed, so a
tie is visited later-position first). -/
def peakPriorityOrder (peaks : List (ℕ × ℚ)) : List ℕ :=
  ((List.insertionSort (fun a b => a.2 ≤ b.2) peaks).reverse).map Prod.fst

/-- The kept-flag array of `_select_by_peak_distance` after all
removal passes, as the list of still-kept positions. -/
def peakKept (peaks : List (ℕ × ℚ)) (d : ℕ) : List ℕ :=
  (peakPriorityOrder peaks).foldl (peakStep d) (peaks.map Prod.fst)

/-- scipy's `_select_by_peak_distance`: the surviving peak positions in
their original order. -/
def selectByPeakDistance (peaks : List (ℕ × ℚ)) (d : ℕ) : List ℕ :=
  (peaks.map Prod.fst).filter (fun p => decide (p ∈ peakKept peaks d))

/-- The candidate peaks of `detect_peaks`: local maxima whose height
reaches the percentile threshold (`find_peaks(..., height=threshold)`). -/
def peakCandidates (energy : List ℚ) (thresholdPercentile : ℚ) : List ℕ :=
  (localMaxima energy).filter
    (fun p => decide (percentile energy thresholdPercentile ≤ energy.getD p 0))

/-- `AudioAnalyzer.detect_peaks`: percentile height threshold, then
`scipy.signal.find_peaks` with the `distance` condition. -/
def detect_peaks (energy : List ℚ) (thresholdPercentile : ℚ)
    (minDistance : ℕ) : List ℕ :=
  selectByPeakDistance
    ((peakCandidates energy thresholdPercentile).map
      (fun p => (p, energy.getD p 0)))
    minDistance

theorem mem_peakStep {d : ℕ} {kept : List ℕ} {p k : ℕ}
    (h : k ∈ peakStep d kept p) : k ∈ kept := by
  unfold peakStep at h
  split at h
  · exact List.mem_of_mem_filter h
  · exact h

theorem foldl_peakStep_not_mem (d : ℕ) (L : List ℕ) :
    ∀ kept i, i ∉ kept → i ∉ L.foldl (peakStep d) kept := by
  induction L with
  | nil => intro kept i h; simpa using h
  | cons m rest ih =>
    intro kept i h
    simp only [List.foldl_cons]
    exact ih (peakStep d kept m) i (fun hm => h (mem_peakStep hm))

theorem foldl_peakStep_removal (d : ℕ) (L : List ℕ) :
    ∀ kept i j, i ≠ j → max i j - min i j < d → i ∈ L →
      i ∉ L.foldl (peakStep d) kept ∨ j ∉ L.foldl (peakStep d) kept := by
  induction L with
  | nil => intro kept i j _ _ hiL; simp at hiL
  | cons m rest ih =>
    intro kept i j hij hd hiL
    simp only [List.foldl_cons]
    rcases List.mem_cons.mp hiL with rfl | hiR
    · by_cases hm : i ∈ kept
      · right
        apply foldl_peakStep_not_mem
        unfold peakStep
        rw [if_pos hm]
        intro hjf
        have hcond := List.of_mem_filter hjf
        rw [decide_eq_true_eq] at hcond
        rcases hcond with h | h
        · exact hij h.symm
        · rw [max_comm, min_comm] at h
          omega
      · left
        apply foldl_peakStep_not_mem
        unfold peakStep
        rw [if_neg hm]
        exact hm
    · exact ih (peakStep d kept m) i j hij hd hiR

theorem mem_peakPriorityOrder {peaks : List (ℕ × ℚ)} {a : ℕ}
    (ha : a ∈ peaks.map Prod.fst) : a ∈ peakPriorityOrder peaks := by
  obtain ⟨pr, hpr, rfl⟩ := List.mem_map.mp ha
  refine List.mem_map.mpr ⟨pr, ?_, rfl⟩
  rw [List.mem_reverse]
  exact ((List.perm_insertionSort _ _).mem_iff).mpr hpr

theorem selectByPeakDistance_gap (peaks : List (ℕ × ℚ)) (d : ℕ) :
    ∀ a ∈ selectByPeakDistance peaks d, ∀ b ∈ selectByPeakDistance peaks d,
      a ≠ b → d ≤ max a b - min a b := by
  intro a ha b hb hab
  by_contra hlt
  push_neg at hlt
  unfold selectByPeakDistance at ha hb
  have hka : a ∈ peakKept peaks d := by
    have := List.of_mem_filter ha
    rwa [decide_eq_true_eq] at this
  have hkb : b ∈ peakKept peaks d := by
    have := List.of_mem_filter hb
    rwa [decide_eq_true_eq] at this
  have hao : a ∈ peakPriorityOrder peaks :=
    mem_peakPriorityOrder (List.mem_of_mem_filter ha)
  rcases foldl_peakStep_removal d (peakPriorityOrder peaks)
      (peaks.map Prod.fst) a b hab hlt hao with h | h
  · exact h hka
  · exact h hkb

theorem selectByPeakDistance_sublist (peaks : List (ℕ × ℚ)) (d : ℕ) :
    (selectByPeakDistance peaks d).Sublist (peaks.map Prod.fst) :=
  List.filter_sublist _

theorem plateauEnd_ge (x : ℕ → ℚ) (v : ℚ) (imax : ℕ) :
    ∀ fuel j, j ≤ plateauEnd x v imax j fuel := by
  intro fuel
  induction fuel with
  | zero => intro j; simp [plateauEnd]
  | succ f ih =>
    intro j
    unfold plateauEnd
    split
    · exact le_trans (Nat.le_succ j) (ih (j + 1))
    · exact le_rfl

theorem lmLoop_ge (x : ℕ → ℚ) (n : ℕ) :
    ∀ fuel i p, p ∈ lmLoop x n i fuel → i ≤ p := by
  intro fuel
  induction fuel with
  | zero => intro i p hp; simp [lmLoop] at hp
  | succ f ih =>
    intro i p hp
    simp only [lmLoop] at hp
    split at hp
    · split at hp
      · split at hp
        · rcases List.mem_cons.mp hp with rfl | hp2
          · have hia := plateauEnd_ge x (x i) (n - 1) n (i + 1)
            omega
          · have h1 := ih _ _ hp2
            have hia := plateauEnd_ge x (x i) (n - 1) n (i + 1)
            omega
        · have := ih _ _ hp
          omega
      · have := ih _ _ hp
        omega
    · simp at hp

theorem lmLoop_pairwise (x : ℕ → ℚ) (n : ℕ) :
    ∀ fuel i, (lmLoop x n i fuel).Pairwise (· < ·) := by
  intro fuel
  induction fuel with
  | zero => intro i; simp [lmLoop]
  | succ f ih =>
    intro i
    simp only [lmLoop]
    split
    · split
      · split
        · refine List.pairwise_cons.mpr ⟨?_, ih _⟩
          intro p hp
          have hia := plateauEnd_ge x (x i) (n - 1) n (i + 1)
          have := lmLoop_ge x n f _ p hp
          omega
        · exact ih _
      · exact ih _
    · simp

theorem peakCandidates_pairwise (energy : List ℚ) (tp : ℚ) :
    (peakCandidates energy tp).Pairwise (· < ·) :=
  List.Pairwise.sublist (List.filter_sublist _) (lmLoop_pairwise _ _ _ _)

/-- C2 part 1 core: the output of `detect_peaks` is strictly increasing
with consecutive gaps at least `minDistance`. -/
theorem detect_peaks_sorted_spaced (energy : List ℚ) (tp : ℚ) (d : ℕ) :
    (detect_peaks energy tp d).Pairwise (fun a b => a < b ∧ a + d ≤ b) := by
  set cands := peakCandidates energy tp with hc
  set peaks := cands.map (fun p => (p, energy.getD p 0)) with hpk
  have hfst : peaks.map Prod.fst = cands := by
    rw [hpk, List.map_map]
    have hid : (Prod.fst ∘ fun p : ℕ => (p, energy.getD p 0)) = id := rfl
    rw [hid, List.map_id]
  have hsub : (detect_peaks energy tp d).Sublist cands := by
    unfold detect_peaks
    rw [← hc, ← hpk, ← hfst]
    exact selectByPeakDistance_sublist peaks d
  have hlt : (detect_peaks energy tp d).Pairwise (· < ·) :=
    List.Pairwise.sublist hsub (peakCandidates_pairwise energy tp)
  have hgap := selectByPeakDistance_gap peaks d
  refine List.Pairwise.imp_of_mem ?_ hlt
  intro a b ha hb hab
  refine ⟨hab, ?_⟩
  have hd2 : d ≤ max a b - min a b := by
    apply hgap <;> first
      | (unfold detect_peaks at ha; rw [← hc, ← hpk] at ha; exact ha)
      | (unfold detect_peaks at hb; rw [← hc, ← hpk] at hb; exact hb)
      | omega
  omega

theorem peakStep_pair_far (d p q : ℕ) (hne : p ≠ q)
    (hfar : d ≤ max p q - min p q) :
    peakStep d [p, q] q = [p, q] ∧ peakStep d [p, q] p = [p, q] := by
  constructor
  · unfold peakStep
    rw [if_pos (by simp)]
    have hc : (p = q ∨ d ≤ max p q - min p q) := Or.inr hfar
    simp [List.filter, hc]
  · unfold peakStep
    rw [if_pos (by simp)]
    have hc : (q = p ∨ d ≤ max q p - min q p) := by
      right; rw [max_comm, min_comm]; exact hfar
    simp [List.filter, hc]

theorem peakStep_pair_close (d p q : ℕ) (hne : p ≠ q)
    (hclose : max p q - min p q < d) :
    peakStep d [p, q] q = [q] ∧ peakStep d [p, q] p = [p] := by
  constructor
  · unfold peakStep
    rw [if_pos (by simp)]
    have hc : ¬ (p = q ∨ d ≤ max p q - min p q) := by
      push_neg
      exact ⟨hne, by omega⟩
    simp [List.filter, hc]
  · unfold peakStep
    rw [if_pos (by simp)]
    have hc : ¬ (q = p ∨ d ≤ max q p - min q p) := by
      push_neg
      refine ⟨Ne.symm hne, ?_⟩
      rw [max_comm, min_comm]
      omega
    simp [List.filter, hc]

theorem peakStep_absent (d a b : ℕ) (hne : a ≠ b) :
    peakStep d [b] a = [b] := by
  unfold peakStep
  rw [if_neg (by simp [hne])]

theorem selectByPeakDistance_two (p q : ℕ) (hp hq : ℚ) (d : ℕ)
    (hpq : p < q) :
    (p + d ≤ q →
      selectByPeakDistance [(p, hp), (q, hq)] d = [p, q]) ∧
    (q < p + d → hp ≤ hq →
      selectByPeakDistance [(p, hp), (q, hq)] d = [q]) ∧
    (q < p + d → hq < hp →
      selectByPeakDistance [(p, hp), (q, hq)] d = [p]) := by
  have hne : p ≠ q := Nat.ne_of_lt hpq
  have hmapfst : ([(p, hp), (q, hq)] : List (ℕ × ℚ)).map Prod.fst = [p, q] := rfl
  by_cases hle : hp ≤ hq
  · have horder : peakPriorityOrder [(p, hp), (q, hq)] = [q, p] := by
      unfold peakPriorityOrder
      rw [show List.insertionSort (fun a b : ℕ × ℚ => a.2 ≤ b.2)
          [(p, hp), (q, hq)] = [(p, hp), (q, hq)] by
        simp [List.insertionSort, List.orderedInsert, hle]]
      rfl
    refine ⟨?_, ?_, ?_⟩
    · intro hfar
      have hd : d ≤ max p q - min p q := by omega
      have hkept : peakKept [(p, hp), (q, hq)] d = [p, q] := by
        unfold peakKept
        rw [horder, hmapfst]
        simp only [List.foldl_cons, List.foldl_nil]
        rw [(peakStep_pair_far d p q hne hd).1,
          (peakStep_pair_far d p q hne hd).2]
      unfold selectByPeakDistance
      rw [hkept, hmapfst]
      simp
    · intro hclose _
      have hd : max p q - min p q < d := by omega
      have hkept : peakKept [(p, hp), (q, hq)] d = [q] := by
        unfold peakKept
        rw [horder, hmapfst]
        simp only [List.foldl_cons, List.foldl_nil]
        rw [(peakStep_pair_close d p q hne hd).1, peakStep_absent d p q hne]
      unfold selectByPeakDistance
      rw [hkept, hmapfst]
      simp [hne]
    · intro _ hgt
      exact absurd hle (not_le.mpr hgt)
  · have horder : peakPriorityOrder [(p, hp), (q, hq)] = [p, q] := by
      unfold peakPriorityOrder
      rw [show List.insertionSort (fun a b : ℕ × ℚ => a.2 ≤ b.2)
          [(p, hp), (q, hq)] = [(q, hq), (p, hp)] by
        simp [List.insertionSort, List.orderedInsert, hle]]
      rfl
    refine ⟨?_, ?_, ?_⟩
    · intro hfar
      have hd : d ≤ max p q - min p q := by omega
      have hkept : peakKept [(p, hp), (q, hq)] d = [p, q] := by
        unfold peakKept
        rw [horder, hmapfst]
        simp only [List.foldl_cons, List.foldl_nil]
        rw [(peakStep_pair_far d p q hne hd).2,
          (peakStep_pair_far d p q hne hd).1]
      unfold selectByPeakDistance
      rw [hkept, hmapfst]
      simp
    · intro _ hle2
      exact absurd hle2 hle
    · intro hclose _
      have hd : max p q - min p q < d := by omega
      have hkept : peakKept [(p, hp), (q, hq)] d = [p] := by
        unfold peakKept
        rw [horder, hmapfst]
        simp only [List.foldl_cons, List.foldl_nil]
        rw [(peakStep_pair_close d p q hne hd).2,
          peakStep_absent d q p (Ne.symm hne)]
      unfold selectByPeakDistance
      rw [hkept, hmapfst]
      simp [Ne.symm hne]

/-- C2: `detect_peaks` output is strictly increasing with consecutive
gaps of at least `minDistance` frames; when the qualifying candidates
are exactly two peaks, both are retained iff they are at least
`minDistance` frames apart (in particular at exactly `minDistance`),
and when they are closer (in particular one frame closer) only the
higher of the two is retained. -/
theorem detect_peaks_spec (energy : List ℚ) (tp : ℚ) (d : ℕ) (hd : 1 ≤ d) :
    (detect_peaks energy tp d).Pairwise (fun a b => a < b ∧ a + d ≤ b) ∧
    (∀ p q, peakCandidates energy tp = [p, q] → p + d ≤ q →
      detect_peaks energy tp d = [p, q]) ∧
    (∀ p q, peakCandidates energy tp = [p, q] → q < p + d →
      energy.getD p 0 ≤ energy.getD q 0 →
      detect_peaks energy tp d = [q]) ∧
    (∀ p q, peakCandidates energy tp = [p, q] → q < p + d →
      energy.getD q 0 < energy.getD p 0 →
      detect_peaks energy tp d = [p]) := by
  have hmain : ∀ p q, peakCandidates energy tp = [p, q] →
      p < q ∧ detect_peaks energy tp d =
        selectByPeakDistance [(p, energy.getD p 0), (q, energy.getD q 0)] d := by
    intro p q hc
    have hpw := peakCandidates_pairwise energy tp
    rw [hc] at hpw
    have hpq : p < q := by
      have := List.pairwise_cons.mp hpw
      exact this.1 q (by simp)
    refine ⟨hpq, ?_⟩
    unfold detect_peaks
    rw [hc]
    rfl
  refine ⟨detect_peaks_sorted_spaced energy tp d, ?_, ?_, ?_⟩
  · intro p q hc hfar
    obtain ⟨hpq, heq⟩ := hmain p q hc
    rw [heq]
    exact (selectByPeakDistance_two p q _ _ d hpq).1 hfar
  · intro p q hc hclose hle
    obtain ⟨hpq, heq⟩ := hmain p q hc
    rw [heq]
    exact (selectByPeakDistance_two p q _ _ d hpq).2.1 hclose hle
  · intro p q hc hclose hgt
    obtain ⟨hpq, heq⟩ := hmain p q hc
    rw [heq]
    exact (selectByPeakDistance_two p q _ _ d hpq).2.2 hclose hgt

/-- Checks `detect_peaks_spec` concretely: two equal candidate peaks 3
frames apart with `minDistance = 3` are both retained; two candidate
peaks 2 frames apart keep only the higher one (on either side). -/
theorem detect_peaks_spec_witness :
    detect_peaks [0, 1, 0, 0, 1, 0] 0 3 = [1, 4] ∧
    detect_peaks [0, 1, 0, 2, 0] 0 3 = [3] ∧
    detect_peaks [0, 2, 0, 1, 0] 0 3 = [1] := by
  have h1 := detect_peaks_spec [0, 1, 0, 0, 1, 0] 0 3 (by norm_num)
  have h2 := detect_peaks_spec [0, 1, 0, 2, 0] 0 3 (by norm_num)
  have h3 := detect_peaks_spec [0, 2, 0, 1, 0] 0 3 (by norm_num)
  refine ⟨h1.2.1 1 4 ?_ (by norm_num),
          h2.2.2.1 1 3 ?_ (by norm_num) ?_,
          h3.2.2.2 1 3 ?_ (by norm_num) ?_⟩
  · norm_num [peakCandidates, localMaxima, lmLoop, plateauEnd, percentile,
      List.insertionSort, List.orderedInsert, List.filter]
  · norm_num [peakCandidates, localMaxima, lmLoop, plateauEnd, percentile,
      List.insertionSort, List.orderedInsert, List.filter]
  · norm_num [List.getD]
  · norm_num [peakCandidates, localMaxima, lmLoop, plateauEnd, percentile,
      List.insertionSort, List.orderedInsert, List.filter]
  · norm_num [List.getD]

/-- An image frame: height, width, channel count, and pixel values.
Pixel access mirrors `frame[i, j, k]` (row, column, channel). -/
structure Frame where
  h : ℕ
  w : ℕ
  c : ℕ
  px : ℕ → ℕ → ℕ → ℚ

/-- The numpy `shape` triple of a frame. -/
def Frame.shape (f : Frame) : ℕ × ℕ × ℕ := (f.h, f.w, f.c)

/-- The external cv2/numpy primitives the effect code calls.  These are
library collaborators, not repository code, so the embedding takes them
as parameters; the shape obligations cv2 guarantees are stated as
hypotheses where a theorem needs them. -/
structure CVPrims where
  resize : Frame → ℕ → ℕ → Frame
  getRotationMatrix2D : ℚ × ℚ → ℚ → ℚ → (ℚ × ℚ × ℚ) × (ℚ × ℚ × ℚ)
  warpAffine : Frame → (ℚ × ℚ × ℚ) × (ℚ × ℚ × ℚ) → ℕ → ℕ → Frame
  cvtColor : Frame → ℕ → Frame
  gaussianBlur : Frame → ℕ → Frame
  canny : Frame → ℚ → ℚ → Frame
  addWeighted : Frame → ℚ → Frame → ℚ → ℚ → Frame
  remap : Frame → ℕ → ℕ → (ℕ → ℕ → ℚ) → (ℕ → ℕ → ℚ) → Frame
  fillPolyMask : ℕ → ℕ → List (ℤ × ℤ) → (ℕ → ℕ → ℚ)
  sin : ℚ → ℚ
  cos : ℚ → ℚ
  sqrt : ℚ → ℚ
  pi : ℚ

/-- `cv2.COLOR_BGR2HSV`. -/
def COLOR_BGR2HSV : ℕ := 40
/-- `cv2.COLOR_HSV2BGR`. -/
def COLOR_HSV2BGR : ℕ := 54
/-- `cv2.COLOR_BGR2GRAY`. -/
def COLOR_BGR2GRAY : ℕ := 6
/-- `cv2.COLOR_GRAY2BGR`. -/
def COLOR_GRAY2BGR : ℕ := 8

/-- Apply a function to every pixel value. -/
def mapPx (f : Frame) (g : ℚ → ℚ) : Frame :=
  ⟨f.h, f.w, f.c, fun i j k => g (f.px i j k)⟩

/-- `np.clip` over a whole frame. -/
def clipFrame (f : Frame) (lo hi : ℚ) : Frame :=
  mapPx f (fun v => npClip v lo hi)

/-- A value cast with `.astype(np.uint8)`: truncate toward zero, wrap
modulo 256. -/
def u8val (x : ℚ) : ℚ := ((pyInt x % 256 : ℤ) : ℚ)

/-- `.astype(np.uint8)` over a whole frame. -/
def Frame.toU8 (f : Frame) : Frame := mapPx f u8val

/-- Slice assignment `f[y0:y1, x0:x1] = g(...)`. -/
def updRegion (f : Frame) (y0 y1 x0 x1 : ℕ) (g : ℕ → ℕ → ℕ → ℚ) : Frame :=
  ⟨f.h, f.w, f.c, fun i j k =>
    if y0 ≤ i ∧ i < y1 ∧ x0 ≤ j ∧ j < x1 then g i j k else f.px i j k⟩

/-- Pointwise update of a single channel `f[:, :, k0] = g(old value)`. -/
def mapChannel (f : Frame) (k0 : ℕ) (g : ℚ → ℚ) : Frame :=
  ⟨f.h, f.w, f.c, fun i j k => if k = k0 then g (f.px i j k) else f.px i j k⟩

/-- Channel extraction (one plane of `cv2.split`). -/
def frameChannel (f : Frame) (k0 : ℕ) : Frame :=
  ⟨f.h, f.w, 1, fun i j _ => f.px i j k0⟩

/-- Channel assignment `f[:, :, k0] = src` from a single-channel frame. -/
def setChannel (f : Frame) (k0 : ℕ) (src : Frame) : Frame :=
  ⟨f.h, f.w, f.c, fun i j k => if k = k0 then src.px i j 0 else f.px i j k⟩

/-- `cv2.merge` of three single-channel planes. -/
def merge3 (b g r : Frame) : Frame :=
  ⟨b.h, b.w, 3, fun i j k =>
    if k = 0 then b.px i j 0 else if k = 1 then g.px i j 0 else r.px i j 0⟩

/-- `np.zeros_like`. -/
def zerosLike (f : Frame) : Frame := ⟨f.h, f.w, f.c, fun _ _ _ => 0⟩

/-- Python float modulo (sign of the divisor), for the hue wrap `% 180`. -/
def qmod (x m : ℚ) : ℚ := x - m * ⌊x / m⌋

/-- Elementwise addition of a noise field. -/
def addNoise (f : Frame) (noise : ℕ → ℕ → ℕ → ℚ) : Frame :=
  ⟨f.h, f.w, f.c, fun i j k => f.px i j k + noise i j k⟩

/-- Python `range(0, stop, step)`. -/
def rangeStep (stop step : ℕ) : List ℕ :=
  if step = 0 then [] else List.range' 0 ((stop + step - 1) / step) step

/-- `VideoProcessor.zoom_frame`: center-crop by `1/zoom` and resize back;
`zoom <= 1.0` is a no-op. -/
def zoom_frame (cv : CVPrims) (frame : Frame) (zoom_factor : ℚ) : Frame :=
  if zoom_factor ≤ 1 then frame
  else
    let h := frame.h
    let w := frame.w
    let crop_h := pyIntNat ((h : ℚ) / zoom_factor)
    let crop_w := pyIntNat ((w : ℚ) / zoom_factor)
    let start_y := (h - crop_h) / 2
    let start_x := (w - crop_w) / 2
    let cropped : Frame :=
      ⟨crop_h, crop_w, frame.c, fun i j k => frame.px (start_y + i) (start_x + j) k⟩
    cv.resize cropped w h

/-- `VideoProcessor.rotate_frame`: rotate about the integer center;
`|angle| < 0.01` degrees is a no-op. -/
def rotate_frame (cv : CVPrims) (frame : Frame) (angle_degrees : ℚ) : Frame :=
  if |angle_degrees| < 1 / 100 then frame
  else
    let h := frame.h
    let w := frame.w
    let center : ℚ × ℚ := (((w / 2 : ℕ) : ℚ), ((h / 2 : ℕ) : ℚ))
    let rotation_matrix := cv.getRotationMatrix2D center angle_degrees 1
    cv.warpAffine frame rotation_matrix w h

/-- `VideoProcessor.apply_color_grade`: HSV hue shift (wrap mod 180),
saturation and brightness multipliers with clipping; a no-op when all
three parameters are neutral. -/
def apply_color_grade (cv : CVPrims) (frame : Frame)
    (hue_shift saturation_mult brightness_mult : ℚ) : Frame :=
  if hue_shift = 0 ∧ saturation_mult = 1 ∧ brightness_mult = 1 then frame
  else
    let hsv0 := cv.cvtColor frame COLOR_BGR2HSV
    let hsv1 := if hue_shift = 0 then hsv0
      else mapChannel hsv0 0 (fun v => qmod (v + hue_shift) 180)
    let hsv2 := if saturation_mult = 1 then hsv1
      else mapChannel hsv1 1 (fun v => npClip (v * saturation_mult) 0 255)
    let hsv3 := if brightness_mult = 1 then hsv2
      else mapChannel hsv2 2 (fun v => npClip (v * brightness_mult) 0 255)
    cv.cvtColor hsv3.toU8 COLOR_HSV2BGR

/-- `VideoProcessor.apply_motion_blur`: Gaussian blur with an odd kernel
size derived from the intensity; no-op at intensity ≤ 0 or kernel ≤ 1. -/
def apply_motion_blur (cv : CVPrims) (frame : Frame) (intensity : ℚ) : Frame :=
  if intensity ≤ 0 then frame
  else
    let kernel_size0 := pyIntNat (1 + intensity * 15)
    let kernel_size := if kernel_size0 % 2 = 0 then kernel_size0 + 1 else kernel_size0
    if kernel_size ≤ 1 then frame
    else cv.gaussianBlur frame kernel_size

/-- One random slice operation of `apply_glitch_effect` (intensity >
0.5): a shifted copy of a horizontal slice when the shifted source fits
(the "duplicate" branch of the source copies the slice onto itself and
is a no-op).  The draw carries `(slice_y, slice_height, slice_x,
slice_width, shift?, shift)`. -/
def glitchSliceStep (w : ℕ) (fr : Frame)
    (draw : ℕ × ℕ × ℕ × ℕ × Bool × ℤ) : Frame :=
  let (slice_y, slice_height, slice_x, slice_width, doShift, shift) := draw
  if doShift then
    if 0 ≤ (slice_x : ℤ) + shift ∧ (slice_x : ℤ) + shift < (w : ℤ) - slice_width then
      updRegion fr slice_y (slice_y + slice_height) slice_x (slice_x + slice_width)
        (fun i j k => fr.px i ((j : ℤ) + shift).toNat k)
    else fr
  else fr

/-- `VideoProcessor.apply_glitch_effect`: red-channel shift above
intensity 0.3, random slice shifts above 0.5, green/blue chromatic
aberration above 0.4. -/
def apply_glitch_effect (cv : CVPrims) (frame : Frame) (intensity : ℚ)
    (shiftX : ℤ) (sliceDraw : ℕ → ℕ × ℕ × ℕ × ℕ × Bool × ℤ) : Frame :=
  if intensity ≤ 0 then frame
  else
    let h := frame.h
    let w := frame.w
    let g1 :=
      if 0.3 < intensity then
        if shiftX ≠ 0 then
          let red := frameChannel frame 2
          let shifted := cv.warpAffine red ((1, 0, (shiftX : ℚ)), (0, 1, 0)) w h
          setChannel frame 2 shifted
        else frame
      else frame
    let g2 :=
      if 0.5 < intensity then
        (List.range (pyIntNat (intensity * 10))).foldl
          (fun acc i => glitchSliceStep w acc (sliceDraw i)) g1
      else g1
    let g3 :=
      if 0.4 < intensity then
        let aberration := pyInt (intensity * 5)
        let b := frameChannel g2 0
        let g := frameChannel g2 1
        let r := frameChannel g2 2
        let g_shifted := cv.warpAffine g ((1, 0, -(aberration : ℚ)), (0, 1, 0)) w h
        let b_shifted := cv.warpAffine b ((1, 0, (aberration : ℚ)), (0, 1, 0)) w h
        merge3 b_shifted g_shifted r
      else g2
    g3

/-- The blockwise JPEG-like quantization pass of
`apply_artifacts_effect` (intensity > 0.2): each block whose random draw
falls below the block probability is quantized. -/
def artifactsBlocks (fr : Frame) (h w block_size : ℕ) (intensity : ℚ)
    (blockRand : ℕ → ℕ → ℚ) : Frame :=
  let block_probability := 0.2 + intensity * 0.6
  let quantize_levels := max 2 (pyIntNat (256 / (1 + intensity * 15)))
  let quantize_step := 256 / (quantize_levels : ℚ)
  (rangeStep h block_size).foldl (fun accY y =>
    (rangeStep w block_size).foldl (fun acc x =>
      if blockRand y x < block_probability then
        updRegion acc y (min (y + block_size) h) x (min (x + block_size) w)
          (fun i j k =>
            npClip (((pyInt (acc.px i j k / quantize_step)) : ℚ) * quantize_step)
              0 255)
      else acc) accY) fr

/-- The random horizontal banding pass of `apply_artifacts_effect`
(intensity > 0.3): each line is darkened or brightened. -/
def artifactsLines (fr : Frame) (numLines : ℕ)
    (lineDraw : ℕ → ℕ × ℕ × Bool) : Frame :=
  (List.range numLines).foldl (fun acc i =>
    let (line_y, line_height, darken) := lineDraw i
    if darken then
      updRegion acc line_y (line_y + line_height) 0 acc.w
        (fun i2 j2 k2 => acc.px i2 j2 k2 * 0.7)
    else
      updRegion acc line_y (line_y + line_height) 0 acc.w
        (fun i2 j2 k2 => npClip (acc.px i2 j2 k2 * 1.3) 0 255)) fr

/-- `VideoProcessor.apply_artifacts_effect`: block quantization, digital
noise, scan-line banding, global color banding, uint8 conversion and
extreme pixelation, each gated by its intensity tier. -/
def apply_artifacts_effect (cv : CVPrims) (frame : Frame) (intensity : ℚ)
    (blockRand : ℕ → ℕ → ℚ) (noise : ℕ → ℕ → ℕ → ℚ)
    (lineDraw : ℕ → ℕ × ℕ × Bool) : Frame :=
  if intensity ≤ 0 then frame
  else
    let h := frame.h
    let w := frame.w
    let a1 :=
      if 0.2 < intensity then
        artifactsBlocks frame h w (pyIntNat (4 + intensity * 12)) intensity blockRand
      else frame
    let a2 :=
      if 0.15 < intensity then clipFrame (addNoise a1 noise) 0 255
      else a1
    let a3 :=
      if 0.3 < intensity then
        artifactsLines a2 (pyIntNat (2 + intensity * 8)) lineDraw
      else a2
    let a4 :=
      if 0.4 < intensity then
        let color_levels := max 8 (pyIntNat (256 / (1 + intensity * 8)))
        let color_step := 256 / (color_levels : ℚ)
        mapPx a3 (fun v => ((pyInt (v / color_step)) : ℚ) * color_step)
      else a3
    let a5 := (clipFrame a4 0 255).toU8
    let a6 :=
      if 0.7 < intensity then
        let pixel_size := pyIntNat (2 + (intensity - 0.7) * 2)
        if 1 < pixel_size then
          let small_w := max 1 (w / pixel_size)
          let small_h := max 1 (h / pixel_size)
          cv.resize (cv.resize a5 small_w small_h) w h
        else a5
      else a5
    a6

/-- `np.argsort` (modelled stable) of a list of brightness values. -/
def argsortQ (xs : List ℚ) : List ℕ :=
  List.insertionSort (fun a b => xs.getD a 0 ≤ xs.getD b 0)
    (List.range xs.length)

/-- Sorting one column segment of `apply_pixel_sorting` by the
brightness (V) channel of the HSV image. -/
def sortColumnByBrightness (hsv : Frame) (y_start y_end x : ℕ)
    (acc : Frame) : Frame :=
  let m := y_end - y_start
  let brightness := (List.range m).map (fun r => hsv.px (y_start + r) x 2)
  let sort_indices := argsortQ brightness
  ⟨acc.h, acc.w, acc.c, fun i j k =>
    if j = x ∧ y_start ≤ i ∧ i < y_end then
      acc.px (y_start + sort_indices.getD (i - y_start) 0) j k
    else acc.px i j k⟩

/-- Sorting one row segment of `apply_pixel_sorting` by brightness. -/
def sortRowByBrightness (hsv : Frame) (x_start x_end y : ℕ)
    (acc : Frame) : Frame :=
  let m := x_end - x_start
  let brightness := (List.range m).map (fun r => hsv.px y (x_start + r) 2)
  let sort_indices := argsortQ brightness
  ⟨acc.h, acc.w, acc.c, fun i j k =>
    if i = y ∧ x_start ≤ j ∧ j < x_end then
      acc.px i (x_start + sort_indices.getD (j - x_start) 0) k
    else acc.px i j k⟩

/-- `VideoProcessor.apply_pixel_sorting`: strip the frame horizontally
or vertically (random orientation), and within each strip sort a
brightness-ordered fraction of columns/rows; the brightness keys come
from the HSV conversion of the original frame. -/
def apply_pixel_sorting (cv : CVPrims) (frame : Frame) (intensity : ℚ)
    (horiz : Bool) (colChoice : ℕ → List ℕ) (rowChoice : ℕ → List ℕ) : Frame :=
  if intensity ≤ 0 then frame
  else
    let h := frame.h
    let w := frame.w
    let hsv := cv.cvtColor frame COLOR_BGR2HSV
    let num_strips0 := max 1 (pyIntNat (intensity * 15))
    let num_strips := if intensity < 0.3 then max 1 (pyIntNat (intensity * 5))
      else num_strips0
    if horiz then
      let strip_height := h / max 1 num_strips
      (List.range num_strips).foldl (fun acc i =>
        let y_start := i * strip_height
        let y_end := min ((i + 1) * strip_height) h
        if y_end - y_start < 2 then acc
        else
          let columns_to_sort := max 1 (pyIntNat ((w : ℚ) * min 1 (intensity * 3)))
          let column_indices := if columns_to_sort < w then colChoice i
            else List.range w
          column_indices.foldl
            (fun acc2 x => sortColumnByBrightness hsv y_start y_end x acc2)
            acc) frame
    else
      let strip_width := w / max 1 num_strips
      (List.range num_strips).foldl (fun acc i =>
        let x_start := i * strip_width
        let x_end := min ((i + 1) * strip_width) w
        if x_end - x_start < 2 then acc
        else
          let rows_to_sort := max 1 (pyIntNat ((h : ℚ) * min 1 (intensity * 3)))
          let row_indices := if rows_to_sort < h then rowChoice i
            else List.range h
          row_indices.foldl
            (fun acc2 y => sortRowByBrightness hsv x_start x_end y acc2)
            acc) frame

/-- `VideoProcessor.apply_kaleidoscope`: composite `2 + ⌊intensity*6⌋`
rotated copies through angular polygon masks, then blend with the
original at weight `intensity * 0.7`. -/
def apply_kaleidoscope (cv : CVPrims) (frame : Frame) (intensity : ℚ) : Frame :=
  if intensity ≤ 0 then frame
  else
    let h := frame.h
    let w := frame.w
    let center_x := w / 2
    let center_y := h / 2
    let num_segments := pyIntNat (2 + intensity * 6)
    let segment_angle := 360 / (num_segments : ℚ)
    let kal := (List.range num_segments).foldl (fun acc i =>
      let angle := (i : ℚ) * segment_angle
      let M := cv.getRotationMatrix2D (((center_x : ℚ)), ((center_y : ℚ))) angle 1
      let rotated := cv.warpAffine frame M w h
      let points : List (ℤ × ℤ) :=
        [((center_x : ℤ), (center_y : ℤ)),
         ((center_x : ℤ) + (w : ℤ), (center_y : ℤ)),
         ((center_x : ℤ) + pyInt ((w : ℚ) * cv.cos ((angle + segment_angle) * cv.pi / 180)),
          (center_y : ℤ) + pyInt ((w : ℚ) * cv.sin ((angle + segment_angle) * cv.pi / 180)))]
      let mask := cv.fillPolyMask h w points
      ⟨acc.h, acc.w, acc.c, fun i j k =>
        if k < 3 ∧ 0 < mask i j then rotated.px i j k else acc.px i j k⟩)
      (zerosLike frame)
    let blend_factor := intensity * 0.7
    cv.addWeighted frame (1 - blend_factor) kal blend_factor 0

/-- `VideoProcessor.apply_wave_distortion`: remap through combined
sine/cosine coordinate warps with random phases. -/
def apply_wave_distortion (cv : CVPrims) (frame : Frame) (intensity : ℚ)
    (phaseX phaseY : ℚ) : Frame :=
  if intensity ≤ 0 then frame
  else
    let wave_amplitude := intensity * 30
    let wave_frequency := 0.02 + intensity * 0.05
    let map_x := fun (i j : ℕ) =>
      (j : ℚ) + wave_amplitude * cv.sin ((i : ℚ) * wave_frequency + phaseX * cv.pi)
    let map_y := fun (i j : ℕ) =>
      (i : ℚ) + wave_amplitude * 0.5 * cv.cos ((j : ℚ) * wave_frequency + phaseY * cv.pi)
    cv.remap frame frame.h frame.w map_x map_y

/-- `VideoProcessor.apply_vhs_degradation`: darkened scan lines, color
bleed via opposite channel shifts, Gaussian tape noise and saturation
loss, each above its own intensity tier. -/
def apply_vhs_degradation (cv : CVPrims) (frame : Frame) (intensity : ℚ)
    (noise : ℕ → ℕ → ℕ → ℚ) : Frame :=
  if intensity ≤ 0 then frame
  else
    let h := frame.h
    let w := frame.w
    let v1 :=
      if 0.2 < intensity then
        let num_lines := pyIntNat (2 + intensity * 15)
        let line_spacing := h / (num_lines + 1)
        let line_height := max 1 (pyIntNat (intensity * 3))
        (List.range' 1 num_lines).foldl (fun acc i =>
          let line_y := i * line_spacing
          updRegion acc line_y (line_y + line_height) 0 w
            (fun i2 j2 k2 => acc.px i2 j2 k2 * 0.6)) frame
      else frame
    let v2 :=
      if 0.3 < intensity then
        let bleed_amount := pyInt (intensity * 8)
        let b := frameChannel v1 0
        let g := frameChannel v1 1
        let r := frameChannel v1 2
        let r_shifted := cv.warpAffine r ((1, 0, (bleed_amount : ℚ)), (0, 1, 0)) w h
        let b_shifted := cv.warpAffine b ((1, 0, -(bleed_amount : ℚ)), (0, 1, 0)) w h
        merge3 b_shifted g r_shifted
      else v1
    let v3 := if 0.4 < intensity then addNoise v2 noise else v2
    let v4 :=
      if 0.5 < intensity then
        let hsv := cv.cvtColor v3.toU8 COLOR_BGR2HSV
        let hsv2 := mapChannel hsv 1 (fun v => v * (1 - intensity * 0.3))
        cv.cvtColor hsv2 COLOR_HSV2BGR
      else v3
    (clipFrame v4 0 255).toU8

/-- `VideoProcessor.apply_posterization`: per-channel quantization to
`max(2, 256/(1 + intensity*20))` levels. -/
def apply_posterization (frame : Frame) (intensity : ℚ) : Frame :=
  if intensity ≤ 0 then frame
  else
    let num_levels := max 2 (pyIntNat (256 / (1 + intensity * 20)))
    let step := 256 / (num_levels : ℚ)
    ⟨frame.h, frame.w, frame.c, fun i j k =>
      if k < 3 then u8val (npClip (u8val (frame.px i j k / step) * step) 0 255)
      else frame.px i j k⟩

/-- `VideoProcessor.apply_edge_detection_overlay`: inverted Canny edge
map alpha-blended at `intensity * 0.4`. -/
def apply_edge_detection_overlay (cv : CVPrims) (frame : Frame)
    (intensity : ℚ) : Frame :=
  if intensity ≤ 0 then frame
  else
    let gray := cv.cvtColor frame COLOR_BGR2GRAY
    let edges := cv.canny gray 50 150
    let edges_bgr := cv.cvtColor edges COLOR_GRAY2BGR
    let inverted := mapPx edges_bgr (fun v => 255 - v)
    let blend_factor := intensity * 0.4
    cv.addWeighted frame (1 - blend_factor) inverted blend_factor 0

/-- The per-block random draw of `apply_data_corruption`. -/
structure CorruptionBlockDraw where
  x : ℕ
  y : ℕ
  ctype : ℚ
  shiftX : ℤ
  shiftY : ℤ
  noise : ℕ → ℕ → ℕ → ℚ
  chanPerm : ℕ → ℕ

/-- The per-line random draw of `apply_data_corruption`. -/
structure CorruptionLineDraw where
  y : ℕ
  width : ℕ
  x : ℕ
  shift : ℤ

/-- One random block corruption: noise fill below ctype 0.3, clamped
shifted copy below 0.6, channel shuffle otherwise. -/
def dcBlockStep (h w : ℕ) (intensity : ℚ) (acc : Frame)
    (draw : CorruptionBlockDraw) : Frame :=
  let block_size := pyIntNat (10 + intensity * 40)
  if draw.ctype < 0.3 then
    updRegion acc draw.y (draw.y + block_size) draw.x (draw.x + block_size)
      (fun i j k => draw.noise i j k)
  else if draw.ctype < 0.6 then
    let src_x := (max 0 (min ((draw.x : ℤ) + draw.shiftX) ((w : ℤ) - block_size))).toNat
    let src_y := (max 0 (min ((draw.y : ℤ) + draw.shiftY) ((h : ℤ) - block_size))).toNat
    updRegion acc draw.y (draw.y + block_size) draw.x (draw.x + block_size)
      (fun i j k => acc.px (src_y + (i - draw.y)) (src_x + (j - draw.x)) k)
  else
    updRegion acc draw.y (draw.y + block_size) draw.x (draw.x + block_size)
      (fun i j k => acc.px i j (draw.chanPerm k))

/-- One horizontal corrupted band: a clamped shifted copy of a line. -/
def dcLineStep (w : ℕ) (intensity : ℚ) (acc : Frame)
    (draw : CorruptionLineDraw) : Frame :=
  let line_height := max 1 (pyIntNat (intensity * 15))
  let src_x := (max 0 (min ((draw.x : ℤ) + draw.shift) ((w : ℤ) - draw.width))).toNat
  updRegion acc draw.y (draw.y + line_height) draw.x (draw.x + draw.width)
    (fun i j k => acc.px i (src_x + (j - draw.x)) k)

/-- `VideoProcessor.apply_data_corruption`: random block corruption above
intensity 0.1, horizontal corrupted bands above 0.4. -/
def apply_data_corruption (frame : Frame) (intensity : ℚ)
    (blockDraw : ℕ → CorruptionBlockDraw)
    (lineDraw : ℕ → CorruptionLineDraw) : Frame :=
  if intensity ≤ 0 then frame
  else
    let c1 :=
      if 0.1 < intensity then
        (List.range (max 1 (pyIntNat (intensity * 20)))).foldl
          (fun acc i => dcBlockStep frame.h frame.w intensity acc (blockDraw i))
          frame
      else frame
    let c2 :=
      if 0.4 < intensity then
        (List.range (pyIntNat (2 + intensity * 8))).foldl
          (fun acc i => dcLineStep frame.w intensity acc (lineDraw i)) c1
      else c1
    c2

/-- `VideoProcessor.apply_scan_lines_crt`: periodic darkened lines plus
barrel distortion above intensity 0.5. -/
def apply_scan_lines_crt (cv : CVPrims) (frame : Frame) (intensity : ℚ) : Frame :=
  if intensity ≤ 0 then frame
  else
    let h := frame.h
    let w := frame.w
    let scan_line_spacing := max 2 (pyIntNat (3 - intensity * 2))
    let c0 := (rangeStep h (scan_line_spacing * 2)).foldl (fun acc y =>
      updRegion acc y (min (y + scan_line_spacing) h) 0 w
        (fun i2 j2 k2 => acc.px i2 j2 k2 * (0.7 - intensity * 0.3))) frame
    let c1 :=
      if 0.5 < intensity then
        let center_x := (w : ℚ) / 2
        let center_y := (h : ℚ) / 2
        let max_r := cv.sqrt (center_x ^ 2 + center_y ^ 2)
        let distortion := fun (i j : ℕ) =>
          1 + intensity * 0.1 *
            (cv.sqrt (((j : ℚ) - center_x) ^ 2 + ((i : ℚ) - center_y) ^ 2) / max_r) ^ 2
        let map_x := fun (i j : ℕ) => ((j : ℚ) - center_x) / distortion i j + center_x
        let map_y := fun (i j : ℕ) => ((i : ℚ) - center_y) / distortion i j + center_y
        cv.remap c0.toU8 h w map_x map_y
      else c0
    (clipFrame c1 0 255).toU8

/-- `VideoProcessor.blend_layers`: the twelve blend modes over
`[0,1]`-normalized values at a given opacity, composited back to uint8.
`sq` is `np.sqrt` (used only by soft_light). -/
def blend_layers (sq : ℚ → ℚ) (base overlay : Frame) (mode : String)
    (opacity : ℚ) : Frame :=
  if opacity ≤ 0 then base
  else
    let bf := fun i j k => base.px i j k / 255
    let ov := fun i j k => overlay.px i j k / 255
    let res : ℕ → ℕ → ℕ → ℚ :=
      if mode == "normal" then
        fun i j k => ov i j k * opacity + bf i j k * (1 - opacity)
      else if mode == "multiply" then
        fun i j k => bf i j k * ov i j k * opacity + bf i j k * (1 - opacity)
      else if mode == "screen" then
        fun i j k => (1 - (1 - bf i j k) * (1 - ov i j k)) * opacity +
          bf i j k * (1 - opacity)
      else if mode == "overlay" then
        fun i j k =>
          (if bf i j k < 1 / 2 then 2 * bf i j k * ov i j k
           else 1 - 2 * (1 - bf i j k) * (1 - ov i j k)) * opacity +
          bf i j k * (1 - opacity)
      else if mode == "soft_light" then
        fun i j k =>
          (if bf i j k < 1 / 2 then
            bf i j k - (1 - 2 * ov i j k) * bf i j k * (1 - bf i j k)
           else bf i j k + (2 * ov i j k - 1) * (sq (bf i j k) - bf i j k)) *
            opacity + bf i j k * (1 - opacity)
      else if mode == "hard_light" then
        fun i j k =>
          (if ov i j k < 1 / 2 then 2 * bf i j k * ov i j k
           else 1 - 2 * (1 - bf i j k) * (1 - ov i j k)) * opacity +
          bf i j k * (1 - opacity)
      else if mode == "color_dodge" then
        fun i j k => min 1 (bf i j k / (1 - ov i j k + eps)) * opacity +
          bf i j k * (1 - opacity)
      else if mode == "color_burn" then
        fun i j k => (1 - min 1 ((1 - bf i j k) / (ov i j k + eps))) * opacity +
          bf i j k * (1 - opacity)
      else if mode == "darken" then
        fun i j k => min (bf i j k) (ov i j k) * opacity +
          bf i j k * (1 - opacity)
      else if mode == "lighten" then
        fun i j k => max (bf i j k) (ov i j k) * opacity +
          bf i j k * (1 - opacity)
      else if mode == "difference" then
        fun i j k => |bf i j k - ov i j k| * opacity + bf i j k * (1 - opacity)
      else if mode == "exclusion" then
        fun i j k => (bf i j k + ov i j k - 2 * bf i j k * ov i j k) * opacity +
          bf i j k * (1 - opacity)
      else
        fun i j k => ov i j k * opacity + bf i j k * (1 - opacity)
    ⟨base.h, base.w, base.c, fun i j k => u8val (npClip (res i j k * 255) 0 255)⟩

/-- The random draws consumed by one `apply_effects` call, made explicit
(the source uses `np.random` with no fixed seed). -/
structure EffectRand where
  pixelSortHoriz : Bool
  pixelSortCols : ℕ → List ℕ
  pixelSortRows : ℕ → List ℕ
  wavePhaseX : ℚ
  wavePhaseY : ℚ
  glitchShiftX : ℤ
  glitchSlices : ℕ → ℕ × ℕ × ℕ × ℕ × Bool × ℤ
  artifactsBlockRand : ℕ → ℕ → ℚ
  artifactsNoise : ℕ → ℕ → ℕ → ℚ
  artifactsLines : ℕ → ℕ × ℕ × Bool
  vhsNoise : ℕ → ℕ → ℕ → ℚ
  corruptionBlocks : ℕ → CorruptionBlockDraw
  corruptionLines : ℕ → CorruptionLineDraw

/-- `VideoProcessor.apply_effects`, parameterized over the layer-blend
function it would call in layer mode: geometric transforms, color grade,
then the intensity-gated artistic, corruption, stylization and retro
effects in the source's fixed order, blur last, and finally — only in
layer mode — the blend against the geometrically transformed original. -/
def applyEffectsGen (blendFn : Frame → Frame → String → ℚ → Frame)
    (cv : CVPrims) (rand : EffectRand) (frame : Frame)
    (zoom rotation hue_shift saturation brightness blur_intensity
     glitch_intensity artifacts_intensity pixel_sort_intensity
     kaleidoscope_intensity wave_distortion_intensity vhs_intensity
     posterization_intensity edge_detection_intensity
     data_corruption_intensity scan_lines_intensity : ℚ)
    (effect_mode blend_mode : String) (layer_opacity : ℚ) : Frame :=
  let original_transformed :=
    if effect_mode == "layer" then
      some (rotate_frame cv (zoom_frame cv frame zoom) rotation)
    else none
  let f1 := zoom_frame cv frame zoom
  let f2 := rotate_frame cv f1 rotation
  let f3 := apply_color_grade cv f2 hue_shift saturation brightness
  let f4 := if 0 < pixel_sort_intensity then
      apply_pixel_sorting cv f3 pixel_sort_intensity rand.pixelSortHoriz
        rand.pixelSortCols rand.pixelSortRows
    else f3
  let f5 := if 0 < kaleidoscope_intensity then
      apply_kaleidoscope cv f4 kaleidoscope_intensity
    else f4
  let f6 := if 0 < wave_distortion_intensity then
      apply_wave_distortion cv f5 wave_distortion_intensity
        rand.wavePhaseX rand.wavePhaseY
    else f5
  let f7 := if 0 < glitch_intensity then
      apply_glitch_effect cv f6 glitch_intensity rand.glitchShiftX
        rand.glitchSlices
    else f6
  let f8 := if 0 < data_corruption_intensity then
      apply_data_corruption f7 data_corruption_intensity
        rand.corruptionBlocks rand.corruptionLines
    else f7
  let f9 := if 0 < artifacts_intensity then
      apply_artifacts_effect cv f8 artifacts_intensity
        rand.artifactsBlockRand rand.artifactsNoise rand.artifactsLines
    else f8
  let f10 := if 0 < posterization_intensity then
      apply_posterization f9 posterization_intensity
    else f9
  let f11 := if 0 < edge_detection_intensity then
      apply_edge_detection_overlay cv f10 edge_detection_intensity
    else f10
  let f12 := if 0 < vhs_intensity then
      apply_vhs_degradation cv f11 vhs_intensity rand.vhsNoise
    else f11
  let f13 := if 0 < scan_lines_intensity then
      apply_scan_lines_crt cv f12 scan_lines_intensity
    else f12
  let f14 := if 0 < blur_intensity then
      apply_motion_blur cv f13 blur_intensity
    else f13
  match original_transformed with
  | some orig => blendFn orig f14 blend_mode layer_opacity
  | none => f14

/-- `VideoProcessor.apply_effects`: the pipeline with the source's
`blend_layers` as the layer-mode blend function. -/
def apply_effects (cv : CVPrims) (rand : EffectRand) (frame : Frame)
    (zoom rotation hue_shift saturation brightness blur_intensity
     glitch_intensity artifacts_intensity pixel_sort_intensity
     kaleidoscope_intensity wave_distortion_intensity vhs_intensity
     posterization_intensity edge_detection_intensity
     data_corruption_intensity scan_lines_intensity : ℚ)
    (effect_mode blend_mode : String) (layer_opacity : ℚ) : Frame :=
  applyEffectsGen (blend_layers cv.sqrt) cv rand frame
    zoom rotation hue_shift saturation brightness blur_intensity
    glitch_intensity artifacts_intensity pixel_sort_intensity
    kaleidoscope_intensity wave_distortion_intensity vhs_intensity
    posterization_intensity edge_detection_intensity
    data_corruption_intensity scan_lines_intensity
    effect_mode blend_mode layer_opacity

/-- C7: `apply_effects` with every parameter at its neutral value
(zoom 1, rotation 0, hue 0, saturation 1, brightness 1, every intensity
0, direct mode) returns the input frame unchanged, bit for bit, for any
cv2 backend and any random draws. -/
theorem apply_effects_neutral_identity (cv : CVPrims) (rand : EffectRand)
    (frame : Frame) (blend_mode : String) (layer_opacity : ℚ) :
    apply_effects cv rand frame 1 0 0 1 1 0 0 0 0 0 0 0 0 0 0 0
      "direct" blend_mode layer_opacity = frame := by
  unfold apply_effects applyEffectsGen
  simp only [zoom_frame, rotate_frame, apply_color_grade]
  norm_num
  rw [if_neg (by decide)]

/-- C10: in direct mode the output of `apply_effects` does not depend on
the blend mode, the layer opacity, or even the blend function itself
(`blend_layers` is never invoked): two calls differing only in those
arguments return identical frames. -/
theorem apply_effects_direct_ignores_blend
    (blendFn1 blendFn2 : Frame → Frame → String → ℚ → Frame)
    (cv : CVPrims) (rand : EffectRand) (frame : Frame)
    (zoom rotation hue_shift saturation brightness blur_intensity
     glitch_intensity artifacts_intensity pixel_sort_intensity
     kaleidoscope_intensity wave_distortion_intensity vhs_intensity
     posterization_intensity edge_detection_intensity
     data_corruption_intensity scan_lines_intensity : ℚ)
    (bm1 bm2 : String) (op1 op2 : ℚ) :
    applyEffectsGen blendFn1 cv rand frame
      zoom rotation hue_shift saturation brightness blur_intensity
      glitch_intensity artifacts_intensity pixel_sort_intensity
      kaleidoscope_intensity wave_distortion_intensity vhs_intensity
      posterization_intensity edge_detection_intensity
      data_corruption_intensity scan_lines_intensity "direct" bm1 op1 =
    applyEffectsGen blendFn2 cv rand frame
      zoom rotation hue_shift saturation brightness blur_intensity
      glitch_intensity artifacts_intensity pixel_sort_intensity
      kaleidoscope_intensity wave_distortion_intensity vhs_intensity
      posterization_intensity edge_detection_intensity
      data_corruption_intensity scan_lines_intensity "direct" bm2 op2 := rfl

/-- The shape guarantees of the cv2 primitives: resize/warp/remap return
the requested size with the input's channels, color conversions preserve
the spatial size (gray conversions set the channel count), blur and
weighted addition preserve the shape of their (first) input, Canny
returns a single-channel map. -/
structure ShapeContracts (cv : CVPrims) : Prop where
  resize_shape : ∀ f w h, (cv.resize f w h).h = h ∧ (cv.resize f w h).w = w ∧
    (cv.resize f w h).c = f.c
  warp_shape : ∀ f M w h, (cv.warpAffine f M w h).h = h ∧
    (cv.warpAffine f M w h).w = w ∧ (cv.warpAffine f M w h).c = f.c
  cvt_shape : ∀ f code, (cv.cvtColor f code).h = f.h ∧
    (cv.cvtColor f code).w = f.w ∧
    (cv.cvtColor f code).c =
      (if code = COLOR_BGR2GRAY then 1
       else if code = COLOR_GRAY2BGR then 3 else f.c)
  blur_shape : ∀ f k, (cv.gaussianBlur f k).h = f.h ∧
    (cv.gaussianBlur f k).w = f.w ∧ (cv.gaussianBlur f k).c = f.c
  canny_shape : ∀ f a b, (cv.canny f a b).h = f.h ∧
    (cv.canny f a b).w = f.w ∧ (cv.canny f a b).c = 1
  addw_shape : ∀ f1 a f2 b g, (cv.addWeighted f1 a f2 b g).h = f1.h ∧
    (cv.addWeighted f1 a f2 b g).w = f1.w ∧
    (cv.addWeighted f1 a f2 b g).c = f1.c
  remap_shape : ∀ f hh ww mx my, (cv.remap f hh ww mx my).h = hh ∧
    (cv.remap f hh ww mx my).w = ww ∧ (cv.remap f hh ww mx my).c = f.c

theorem shape_ext {f g : Frame} (hh : f.h = g.h) (hw : f.w = g.w)
    (hc : f.c = g.c) : f.shape = g.shape := by
  simp [Frame.shape, hh, hw, hc]

theorem ite_shape {cond : Prop} [Decidable cond] {a b : Frame}
    {s : ℕ × ℕ × ℕ} (ha : a.shape = s) (hb : b.shape = s) :
    (if cond then a else b).shape = s := by
  split <;> assumption

theorem foldl_shape {α : Type} {step : Frame → α → Frame}
    (hstep : ∀ f a, (step f a).shape = f.shape) (l : List α) :
    ∀ f : Frame, (l.foldl step f).shape = f.shape := by
  induction l with
  | nil => intro f; rfl
  | cons a l ih =>
    intro f
    simp only [List.foldl_cons]
    exact (ih (step f a)).trans (hstep f a)

theorem cvt_shape_color {cv : CVPrims} (hcv : ShapeContracts cv) (f : Frame)
    (code : ℕ) (h6 : code ≠ COLOR_BGR2GRAY) (h8 : code ≠ COLOR_GRAY2BGR) :
    (cv.cvtColor f code).shape = f.shape := by
  obtain ⟨hh, hw, hc⟩ := hcv.cvt_shape f code
  refine shape_ext hh hw ?_
  rw [hc, if_neg h6, if_neg h8]

theorem glitchSliceStep_shape (w : ℕ) (fr : Frame)
    (draw : ℕ × ℕ × ℕ × ℕ × Bool × ℤ) :
    (glitchSliceStep w fr draw).shape = fr.shape := by
  unfold glitchSliceStep
  obtain ⟨a, b, c, d, e, g⟩ := draw
  dsimp only
  split <;> try rfl
  split <;> rfl

theorem dcBlockStep_shape (h w : ℕ) (intensity : ℚ) (acc : Frame)
    (draw : CorruptionBlockDraw) :
    (dcBlockStep h w intensity acc draw).shape = acc.shape := by
  unfold dcBlockStep
  split <;> try rfl
  split <;> rfl

theorem dcLineStep_shape (w : ℕ) (intensity : ℚ) (acc : Frame)
    (draw : CorruptionLineDraw) :
    (dcLineStep w intensity acc draw).shape = acc.shape := rfl

theorem zoom_frame_shape {cv : CVPrims} (hcv : ShapeContracts cv)
    (f : Frame) (z : ℚ) : (zoom_frame cv f z).shape = f.shape := by
  unfold zoom_frame
  split
  · rfl
  · exact shape_ext (hcv.resize_shape _ _ _).1 (hcv.resize_shape _ _ _).2.1
      (hcv.resize_shape _ _ _).2.2

theorem rotate_frame_shape {cv : CVPrims} (hcv : ShapeContracts cv)
    (f : Frame) (a : ℚ) : (rotate_frame cv f a).shape = f.shape := by
  unfold rotate_frame
  split
  · rfl
  · exact shape_ext (hcv.warp_shape _ _ _ _).1 (hcv.warp_shape _ _ _ _).2.1
      (hcv.warp_shape _ _ _ _).2.2

theorem apply_color_grade_shape {cv : CVPrims} (hcv : ShapeContracts cv)
    (f : Frame) (hue sat bri : ℚ) :
    (apply_color_grade cv f hue sat bri).shape = f.shape := by
  have hs0 : (cv.cvtColor f COLOR_BGR2HSV).shape = f.shape :=
    cvt_shape_color hcv f COLOR_BGR2HSV (by decide) (by decide)
  unfold apply_color_grade
  split_ifs <;>
    first
      | rfl
      | exact (cvt_shape_color hcv _ COLOR_HSV2BGR (by decide) (by decide)).trans hs0

theorem apply_motion_blur_shape {cv : CVPrims} (hcv : ShapeContracts cv)
    (f : Frame) (i : ℚ) : (apply_motion_blur cv f i).shape = f.shape := by
  unfold apply_motion_blur
  dsimp only
  split_ifs <;>
    first
      | rfl
      | exact shape_ext (hcv.blur_shape _ _).1 (hcv.blur_shape _ _).2.1
          (hcv.blur_shape _ _).2.2

theorem apply_glitch_effect_shape {cv : CVPrims} (hcv : ShapeContracts cv)
    (f : Frame) (i : ℚ) (sx : ℤ) (sd : ℕ → ℕ × ℕ × ℕ × ℕ × Bool × ℤ)
    (hc3 : f.c = 3) :
    (apply_glitch_effect cv f i sx sd).shape = f.shape := by
  unfold apply_glitch_effect
  split
  · rfl
  · have hg1 : ∀ g1 : Frame, g1.shape = f.shape →
        ((if 0.5 < i then
            (List.range (pyIntNat (i * 10))).foldl
              (fun acc n => glitchSliceStep f.w acc (sd n)) g1
          else g1) : Frame).shape = f.shape := by
      intro g1 hg1
      refine ite_shape ((foldl_shape ?_ _ _).trans hg1) hg1
      intro fr a
      exact glitchSliceStep_shape f.w fr (sd a)
    have hmerge : ∀ g2 : Frame, g2.shape = f.shape →
        ((if 0.4 < i then
            merge3
              (cv.warpAffine (frameChannel g2 0)
                ((1, 0, ((pyInt (i * 5) : ℤ) : ℚ)), (0, 1, 0)) f.w f.h)
              (cv.warpAffine (frameChannel g2 1)
                ((1, 0, -((pyInt (i * 5) : ℤ) : ℚ)), (0, 1, 0)) f.w f.h)
              (frameChannel g2 2)
          else g2) : Frame).shape = f.shape := by
      intro g2 hg2
      refine ite_shape ?_ hg2
      refine shape_ext ?_ ?_ ?_
      · exact (hcv.warp_shape _ _ _ _).1
      · exact (hcv.warp_shape _ _ _ _).2.1
      · exact hc3.symm
    apply hmerge
    apply hg1
    refine ite_shape (ite_shape rfl rfl) rfl

theorem artifactsBlocks_shape (fr : Frame) (h w bs : ℕ) (i : ℚ)
    (br : ℕ → ℕ → ℚ) : (artifactsBlocks fr h w bs i br).shape = fr.shape := by
  unfold artifactsBlocks
  refine foldl_shape ?_ _ _
  intro f2 y
  refine foldl_shape ?_ _ _
  intro f3 x
  dsimp only
  split <;> rfl

theorem artifactsLines_shape (fr : Frame) (n : ℕ)
    (ld : ℕ → ℕ × ℕ × Bool) : (artifactsLines fr n ld).shape = fr.shape := by
  unfold artifactsLines
  refine foldl_shape ?_ _ _
  intro f2 a
  dsimp only
  split <;> rfl

theorem mapPx_shape (f : Frame) (g : ℚ → ℚ) : (mapPx f g).shape = f.shape := rfl

theorem clipFrame_shape (f : Frame) (lo hi : ℚ) :
    (clipFrame f lo hi).shape = f.shape := rfl

theorem toU8_shape (f : Frame) : f.toU8.shape = f.shape := rfl

theorem addNoise_shape (f : Frame) (nz : ℕ → ℕ → ℕ → ℚ) :
    (addNoise f nz).shape = f.shape := rfl

theorem pixelation_shape {cv : CVPrims} (hcv : ShapeContracts cv)
    (a f : Frame) (sw sh : ℕ) (ha : a.c = f.c) :
    (cv.resize (cv.resize a sw sh) f.w f.h).shape = f.shape := by
  refine shape_ext (hcv.resize_shape _ _ _).1 (hcv.resize_shape _ _ _).2.1 ?_
  rw [(hcv.resize_shape _ _ _).2.2, (hcv.resize_shape _ _ _).2.2]
  exact ha

theorem shape_c {f g : Frame} (h : f.shape = g.shape) : f.c = g.c := by
  have := congrArg (fun s : ℕ × ℕ × ℕ => s.2.2) h
  simpa [Frame.shape] using this

theorem apply_artifacts_effect_shape {cv : CVPrims} (hcv : ShapeContracts cv)
    (f : Frame) (i : ℚ) (br : ℕ → ℕ → ℚ) (nz : ℕ → ℕ → ℕ → ℚ)
    (ld : ℕ → ℕ × ℕ × Bool) :
    (apply_artifacts_effect cv f i br nz ld).shape = f.shape := by
  unfold apply_artifacts_effect
  split
  · rfl
  · refine ite_shape (ite_shape (pixelation_shape hcv _ f _ _ (shape_c ?_)) ?_) ?_ <;>
    · refine (toU8_shape _).trans ((clipFrame_shape _ _ _).trans ?_)
      refine ite_shape ((mapPx_shape _ _).trans ?_) ?_ <;>
      · refine ite_shape ((artifactsLines_shape _ _ _).trans ?_) ?_ <;>
        · refine ite_shape ((clipFrame_shape _ _ _).trans
            ((addNoise_shape _ _).trans ?_)) ?_ <;>
          exact ite_shape (artifactsBlocks_shape _ _ _ _ _ _) rfl

theorem mapChannel_shape (f : Frame) (k : ℕ) (g : ℚ → ℚ) :
    (mapChannel f k g).shape = f.shape := rfl

theorem apply_pixel_sorting_shape {cv : CVPrims} (f : Frame) (i : ℚ)
    (hz : Bool) (cc rc : ℕ → List ℕ) :
    (apply_pixel_sorting cv f i hz cc rc).shape = f.shape := by
  unfold apply_pixel_sorting
  split
  · rfl
  · refine ite_shape ?_ ?_ <;>
    · refine foldl_shape ?_ _ _
      intro fr a
      dsimp only
      split_ifs <;>
        first
          | rfl
          | (refine foldl_shape ?_ _ _
             intro fr2 b
             rfl)

theorem apply_kaleidoscope_shape {cv : CVPrims} (hcv : ShapeContracts cv)
    (f : Frame) (i : ℚ) : (apply_kaleidoscope cv f i).shape = f.shape := by
  unfold apply_kaleidoscope
  split
  · rfl
  · exact shape_ext (hcv.addw_shape _ _ _ _ _).1 (hcv.addw_shape _ _ _ _ _).2.1
      (hcv.addw_shape _ _ _ _ _).2.2

theorem apply_wave_distortion_shape {cv : CVPrims} (hcv : ShapeContracts cv)
    (f : Frame) (i px py : ℚ) :
    (apply_wave_distortion cv f i px py).shape = f.shape := by
  unfold apply_wave_distortion
  split
  · rfl
  · exact shape_ext (hcv.remap_shape _ _ _ _ _).1 (hcv.remap_shape _ _ _ _ _).2.1
      (hcv.remap_shape _ _ _ _ _).2.2

theorem apply_vhs_degradation_shape {cv : CVPrims} (hcv : ShapeContracts cv)
    (f : Frame) (i : ℚ) (nz : ℕ → ℕ → ℕ → ℚ) (hc3 : f.c = 3) :
    (apply_vhs_degradation cv f i nz).shape = f.shape := by
  unfold apply_vhs_degradation
  split
  · rfl
  · refine (toU8_shape _).trans ((clipFrame_shape _ _ _).trans ?_)
    refine ite_shape ((cvt_shape_color hcv _ _ (by decide) (by decide)).trans
      ((mapChannel_shape _ _ _).trans
        ((cvt_shape_color hcv _ _ (by decide) (by decide)).trans
          ((toU8_shape _).trans ?_)))) ?_ <;>
    · refine ite_shape ((addNoise_shape _ _).trans ?_) ?_ <;>
      · refine ite_shape (shape_ext (hcv.warp_shape _ _ _ _).1
          (hcv.warp_shape _ _ _ _).2.1 hc3.symm) ?_
        refine ite_shape ?_ rfl
        refine foldl_shape ?_ _ _
        intro fr a
        rfl

theorem apply_posterization_shape (f : Frame) (i : ℚ) :
    (apply_posterization f i).shape = f.shape := by
  unfold apply_posterization
  split <;> rfl

theorem apply_edge_detection_overlay_shape {cv : CVPrims}
    (hcv : ShapeContracts cv) (f : Frame) (i : ℚ) :
    (apply_edge_detection_overlay cv f i).shape = f.shape := by
  unfold apply_edge_detection_overlay
  split
  · rfl
  · exact shape_ext (hcv.addw_shape _ _ _ _ _).1 (hcv.addw_shape _ _ _ _ _).2.1
      (hcv.addw_shape _ _ _ _ _).2.2

theorem apply_data_corruption_shape (f : Frame) (i : ℚ)
    (bd : ℕ → CorruptionBlockDraw) (ld : ℕ → CorruptionLineDraw) :
    (apply_data_corruption f i bd ld).shape = f.shape := by
  unfold apply_data_corruption
  split
  · rfl
  · refine ite_shape ((foldl_shape
      (fun fr a => dcLineStep_shape _ _ _ _) _ _).trans ?_) ?_ <;>
    exact ite_shape (foldl_shape (fun fr a => dcBlockStep_shape _ _ _ _ _) _ _) rfl

theorem apply_scan_lines_crt_shape {cv : CVPrims} (hcv : ShapeContracts cv)
    (f : Frame) (i : ℚ) : (apply_scan_lines_crt cv f i).shape = f.shape := by
  unfold apply_scan_lines_crt
  split
  · rfl
  · lift_lets
    extract_lets hh ww spacing c0
    have hfold : c0.shape = f.shape := by
      refine foldl_shape ?_ _ _
      intro fr a
      rfl
    refine (toU8_shape _).trans ((clipFrame_shape _ _ _).trans ?_)
    refine ite_shape (shape_ext (hcv.remap_shape _ _ _ _ _).1
      (hcv.remap_shape _ _ _ _ _).2.1 ((hcv.remap_shape _ _ _ _ _).2.2.trans
        (shape_c ((toU8_shape _).trans hfold)))) hfold

theorem blend_layers_shape (sq : ℚ → ℚ) (base overlay : Frame)
    (mode : String) (opacity : ℚ) :
    (blend_layers sq base overlay mode opacity).shape = base.shape := by
  delta blend_layers
  by_cases hop : opacity ≤ 0
  · rw [if_pos hop]
  · rw [if_neg hop]
    rfl

/-- C9: for frames with at least one row and column and 3 color
channels, under the cv2 shape guarantees, `apply_effects` — and every
individual effect function it calls — returns a frame with exactly the
input's height, width and channel count, for every parameter combination
(zoom ≥ 1, any rotation, intensities in [0,1], either effect mode). -/
theorem apply_effects_preserves_shape (cv : CVPrims) (hcv : ShapeContracts cv)
    (rand : EffectRand) (frame : Frame) (hc3 : frame.c = 3)
    (hh1 : 1 ≤ frame.h) (hw1 : 1 ≤ frame.w)
    (zoom rotation hue_shift saturation brightness blur_intensity
     glitch_intensity artifacts_intensity pixel_sort_intensity
     kaleidoscope_intensity wave_distortion_intensity vhs_intensity
     posterization_intensity edge_detection_intensity
     data_corruption_intensity scan_lines_intensity : ℚ)
    (hz : 1 ≤ zoom)
    (hintensities : ∀ x ∈ [blur_intensity, glitch_intensity,
      artifacts_intensity, pixel_sort_intensity, kaleidoscope_intensity,
      wave_distortion_intensity, vhs_intensity, posterization_intensity,
      edge_detection_intensity, data_corruption_intensity,
      scan_lines_intensity], 0 ≤ x ∧ x ≤ 1)
    (effect_mode blend_mode : String) (layer_opacity : ℚ)
    (hmode : effect_mode = "direct" ∨ effect_mode = "layer") :
    (apply_effects cv rand frame zoom rotation hue_shift saturation
      brightness blur_intensity glitch_intensity artifacts_intensity
      pixel_sort_intensity kaleidoscope_intensity wave_distortion_intensity
      vhs_intensity posterization_intensity edge_detection_intensity
      data_corruption_intensity scan_lines_intensity effect_mode blend_mode
      layer_opacity).shape = frame.shape ∧
    (zoom_frame cv frame zoom).shape = frame.shape ∧
    (rotate_frame cv frame rotation).shape = frame.shape ∧
    (apply_color_grade cv frame hue_shift saturation brightness).shape =
      frame.shape ∧
    (apply_motion_blur cv frame blur_intensity).shape = frame.shape ∧
    (apply_glitch_effect cv frame glitch_intensity rand.glitchShiftX
      rand.glitchSlices).shape = frame.shape ∧
    (apply_artifacts_effect cv frame artifacts_intensity
      rand.artifactsBlockRand rand.artifactsNoise
      rand.artifactsLines).shape = frame.shape ∧
    (apply_pixel_sorting cv frame pixel_sort_intensity rand.pixelSortHoriz
      rand.pixelSortCols rand.pixelSortRows).shape = frame.shape ∧
    (apply_kaleidoscope cv frame kaleidoscope_intensity).shape = frame.shape ∧
    (apply_wave_distortion cv frame wave_distortion_intensity
      rand.wavePhaseX rand.wavePhaseY).shape = frame.shape ∧
    (apply_vhs_degradation cv frame vhs_intensity rand.vhsNoise).shape =
      frame.shape ∧
    (apply_posterization frame posterization_intensity).shape = frame.shape ∧
    (apply_edge_detection_overlay cv frame edge_detection_intensity).shape =
      frame.shape ∧
    (apply_data_corruption frame data_corruption_intensity
      rand.corruptionBlocks rand.corruptionLines).shape = frame.shape ∧
    (apply_scan_lines_crt cv frame scan_lines_intensity).shape = frame.shape := by
  refine ⟨?_, zoom_frame_shape hcv _ _, rotate_frame_shape hcv _ _,
    apply_color_grade_shape hcv _ _ _ _, apply_motion_blur_shape hcv _ _,
    apply_glitch_effect_shape hcv _ _ _ _ hc3,
    apply_artifacts_effect_shape hcv _ _ _ _ _,
    apply_pixel_sorting_shape _ _ _ _ _,
    apply_kaleidoscope_shape hcv _ _,
    apply_wave_distortion_shape hcv _ _ _ _,
    apply_vhs_degradation_shape hcv _ _ _ hc3,
    apply_posterization_shape _ _,
    apply_edge_detection_overlay_shape hcv _ _,
    apply_data_corruption_shape _ _ _ _,
    apply_scan_lines_crt_shape hcv _ _⟩
  unfold apply_effects
  delta applyEffectsGen
  lift_lets
  extract_lets original_transformed f1 f2 f3 f4 f5 f6 f7 f8 f9 f10 f11 f12
    f13 f14
  have s1 : f1.shape = frame.shape := zoom_frame_shape hcv frame zoom
  have s2 : f2.shape = frame.shape :=
    (rotate_frame_shape hcv f1 rotation).trans s1
  have s3 : f3.shape = frame.shape :=
    (apply_color_grade_shape hcv f2 hue_shift saturation brightness).trans s2
  have s4 : f4.shape = frame.shape :=
    ite_shape ((apply_pixel_sorting_shape f3 pixel_sort_intensity
      rand.pixelSortHoriz rand.pixelSortCols rand.pixelSortRows).trans s3) s3
  have s5 : f5.shape = frame.shape :=
    ite_shape ((apply_kaleidoscope_shape hcv f4 kaleidoscope_intensity).trans
      s4) s4
  have s6 : f6.shape = frame.shape :=
    ite_shape ((apply_wave_distortion_shape hcv f5 wave_distortion_intensity
      rand.wavePhaseX rand.wavePhaseY).trans s5) s5
  have s7 : f7.shape = frame.shape :=
    ite_shape ((apply_glitch_effect_shape hcv f6 glitch_intensity
      rand.glitchShiftX rand.glitchSlices ((shape_c s6).trans hc3)).trans
      s6) s6
  have s8 : f8.shape = frame.shape :=
    ite_shape ((apply_data_corruption_shape f7 data_corruption_intensity
      rand.corruptionBlocks rand.corruptionLines).trans s7) s7
  have s9 : f9.shape = frame.shape :=
    ite_shape ((apply_artifacts_effect_shape hcv f8 artifacts_intensity
      rand.artifactsBlockRand rand.artifactsNoise rand.artifactsLines).trans
      s8) s8
  have s10 : f10.shape = frame.shape :=
    ite_shape ((apply_posterization_shape f9 posterization_intensity).trans
      s9) s9
  have s11 : f11.shape = frame.shape :=
    ite_shape ((apply_edge_detection_overlay_shape hcv f10
      edge_detection_intensity).trans s10) s10
  have s12 : f12.shape = frame.shape :=
    ite_shape ((apply_vhs_degradation_shape hcv f11 vhs_intensity
      rand.vhsNoise ((shape_c s11).trans hc3)).trans s11) s11
  have s13 : f13.shape = frame.shape :=
    ite_shape ((apply_scan_lines_crt_shape hcv f12
      scan_lines_intensity).trans s12) s12
  have s14 : f14.shape = frame.shape :=
    ite_shape ((apply_motion_blur_shape hcv f13 blur_intensity).trans s13) s13
  by_cases hm : (effect_mode == "layer") = true
  · simp only [original_transformed, hm, if_pos]
    refine (blend_layers_shape _ _ _ _ _).trans ?_
    exact (rotate_frame_shape hcv _ _).trans (zoom_frame_shape hcv _ _)
  · simp only [original_transformed, hm, if_neg]
    exact s14

/-- A concrete cv2 backend satisfying the shape contracts, used to
exercise the shape theorem on explicit inputs. -/
def cvModel : CVPrims where
  resize := fun f w h => ⟨h, w, f.c, fun _ _ _ => 0⟩
  getRotationMatrix2D := fun _ _ _ => ((1, 0, 0), (0, 1, 0))
  warpAffine := fun f _ w h => ⟨h, w, f.c, fun _ _ _ => 0⟩
  cvtColor := fun f code =>
    ⟨f.h, f.w,
     if code = COLOR_BGR2GRAY then 1
     else if code = COLOR_GRAY2BGR then 3 else f.c,
     fun _ _ _ => 0⟩
  gaussianBlur := fun f _ => f
  canny := fun f _ _ => ⟨f.h, f.w, 1, fun _ _ _ => 0⟩
  addWeighted := fun f1 _ _ _ _ => ⟨f1.h, f1.w, f1.c, fun _ _ _ => 0⟩
  remap := fun f hh ww _ _ => ⟨hh, ww, f.c, fun _ _ _ => 0⟩
  fillPolyMask := fun _ _ _ => fun _ _ => 0
  sin := fun _ => 0
  cos := fun _ => 0
  sqrt := fun _ => 0
  pi := 0

theorem cvModel_contracts : ShapeContracts cvModel := by
  constructor <;> intros <;> exact ⟨rfl, rfl, rfl⟩

/-- Fixed random draws for exercising the effect pipeline. -/
def randModel : EffectRand where
  pixelSortHoriz := true
  pixelSortCols := fun _ => []
  pixelSortRows := fun _ => []
  wavePhaseX := 0
  wavePhaseY := 0
  glitchShiftX := 1
  glitchSlices := fun _ => (0, 1, 0, 1, false, 0)
  artifactsBlockRand := fun _ _ => 1
  artifactsNoise := fun _ _ _ => 0
  artifactsLines := fun _ => (0, 1, true)
  vhsNoise := fun _ _ _ => 0
  corruptionBlocks := fun _ => ⟨0, 0, 1, 0, 0, fun _ _ _ => 0, id⟩
  corruptionLines := fun _ => ⟨0, 1, 0, 0⟩

/-- A 2×2 three-channel test frame. -/
def frameModel : Frame := ⟨2, 2, 3, fun _ _ _ => 0⟩

/-- Checks the shape-preservation theorem on the concrete backend, a
2×2×3 frame, zoom 3/2, rotation 10°, every intensity 1/2, layer mode. -/
theorem apply_effects_preserves_shape_witness :
    (apply_effects cvModel randModel frameModel (3 / 2) 10 15 (6 / 5) (6 / 5)
      (1 / 2) (1 / 2) (1 / 2) (1 / 2) (1 / 2) (1 / 2) (1 / 2) (1 / 2) (1 / 2)
      (1 / 2) (1 / 2) "layer" "screen" (4 / 5)).shape = frameModel.shape ∧
    (zoom_frame cvModel frameModel (3 / 2)).shape = frameModel.shape ∧
    (rotate_frame cvModel frameModel 10).shape = frameModel.shape ∧
    (apply_color_grade cvModel frameModel 15 (6 / 5) (6 / 5)).shape =
      frameModel.shape ∧
    (apply_motion_blur cvModel frameModel (1 / 2)).shape = frameModel.shape ∧
    (apply_glitch_effect cvModel frameModel (1 / 2) randModel.glitchShiftX
      randModel.glitchSlices).shape = frameModel.shape ∧
    (apply_artifacts_effect cvModel frameModel (1 / 2)
      randModel.artifactsBlockRand randModel.artifactsNoise
      randModel.artifactsLines).shape = frameModel.shape ∧
    (apply_pixel_sorting cvModel frameModel (1 / 2) randModel.pixelSortHoriz
      randModel.pixelSortCols randModel.pixelSortRows).shape =
      frameModel.shape ∧
    (apply_kaleidoscope cvModel frameModel (1 / 2)).shape = frameModel.shape ∧
    (apply_wave_distortion cvModel frameModel (1 / 2) randModel.wavePhaseX
      randModel.wavePhaseY).shape = frameModel.shape ∧
    (apply_vhs_degradation cvModel frameModel (1 / 2)
      randModel.vhsNoise).shape = frameModel.shape ∧
    (apply_posterization frameModel (1 / 2)).shape = frameModel.shape ∧
    (apply_edge_detection_overlay cvModel frameModel (1 / 2)).shape =
      frameModel.shape ∧
    (apply_data_corruption frameModel (1 / 2) randModel.corruptionBlocks
      randModel.corruptionLines).shape = frameModel.shape ∧
    (apply_scan_lines_crt cvModel frameModel (1 / 2)).shape =
      frameModel.shape :=
  apply_effects_preserves_shape cvModel cvModel_contracts randModel
    frameModel rfl (by norm_num [frameModel]) (by norm_num [frameModel])
    (3 / 2) 10 15 (6 / 5) (6 / 5) (1 / 2) (1 / 2) (1 / 2) (1 / 2) (1 / 2)
    (1 / 2) (1 / 2) (1 / 2) (1 / 2) (1 / 2) (1 / 2)
    (by norm_num) (by intro x hx; fin_cases hx <;> norm_num)
    "layer" "screen" (4 / 5) (Or.inr rfl)
